import Mathlib

/-!
Verification development for the DOA5LR audio modding tools
(`extract_kwb_multi.py` and `repack_kwb_multi.py`).

Files are modelled as lists of natural numbers (one per byte); reading a
fixed-width little-endian or big-endian integer at an absolute offset
mirrors the `struct.unpack` calls of the source, with a read past the end
of the list yielding 0 (the source would raise there, so theorems about
actual program runs carry in-bounds or byte-range hypotheses where that
matters).  Packing mirrors `struct.pack`, truncating to the field width.
-/

/-- Byte of `l` at absolute offset `n`, 0 past the end. -/
def byteAt : List Nat → Nat → Nat
  | [], _ => 0
  | b :: _, 0 => b
  | _ :: l, n + 1 => byteAt l n

/-- Models `read_u8` of extract_kwb_multi.py. -/
def read_u8 (f : List Nat) (off : Nat) : Nat := byteAt f off

/-- Models `read_u16le`: `struct.unpack('<H', ...)`. -/
def read_u16le (f : List Nat) (off : Nat) : Nat :=
  byteAt f off + 256 * byteAt f (off + 1)

/-- Models `read_u32le`: `struct.unpack('<I', ...)`. -/
def read_u32le (f : List Nat) (off : Nat) : Nat :=
  byteAt f off + 256 * byteAt f (off + 1) + 65536 * byteAt f (off + 2) +
    16777216 * byteAt f (off + 3)

/-- Models `read_u32be`: `struct.unpack('>I', ...)`. -/
def read_u32be (f : List Nat) (off : Nat) : Nat :=
  16777216 * byteAt f off + 65536 * byteAt f (off + 1) + 256 * byteAt f (off + 2) +
    byteAt f (off + 3)

/-- Packs one byte, `struct.pack('<B', v)` (width-truncating). -/
def u8b (v : Nat) : List Nat := [v % 256]

/-- Packs `struct.pack('<H', v)` (width-truncating). -/
def u16le (v : Nat) : List Nat := [v % 256, v / 256 % 256]

/-- Packs `struct.pack('<I', v)` (width-truncating). -/
def u32le (v : Nat) : List Nat :=
  [v % 256, v / 256 % 256, v / 65536 % 256, v / 16777216 % 256]

/-- Packs a signed 16-bit value, `struct.pack('<h', v)`, two's complement. -/
def s16le (v : Int) : List Nat := u16le (v % 65536).toNat

/-- Packs an `Int`-valued unsigned 16-bit field. -/
def u16leI (v : Int) : List Nat := u16le (v % 65536).toNat

/-- Packs an `Int`-valued unsigned 32-bit field. -/
def u32leI (v : Int) : List Nat := u32le (v % 4294967296).toNat

-- Basic byte-access lemmas.

theorem byteAt_append_right : ∀ (l r : List Nat) (k : Nat),
    byteAt (l ++ r) (l.length + k) = byteAt r k
  | [], _, _ => by simp [byteAt]
  | a :: l, r, k => by
    rw [show (a :: l).length + k = (l.length + k) + 1 by simp; omega]
    show byteAt (l ++ r) (l.length + k) = byteAt r k
    exact byteAt_append_right l r k

theorem byteAt_append_left : ∀ (l r : List Nat) (k : Nat), k < l.length →
    byteAt (l ++ r) k = byteAt l k
  | [], _, _, h => by simp at h
  | a :: l, r, 0, _ => rfl
  | a :: l, r, k + 1, h => by
    show byteAt (l ++ r) k = byteAt l k
    exact byteAt_append_left l r k (by simpa using h)

theorem read_u8_shift (l r : List Nat) (k : Nat) :
    read_u8 (l ++ r) (l.length + k) = read_u8 r k :=
  byteAt_append_right l r k

theorem read_u16le_shift (l r : List Nat) (k : Nat) :
    read_u16le (l ++ r) (l.length + k) = read_u16le r k := by
  unfold read_u16le
  rw [show l.length + k + 1 = l.length + (k + 1) by omega]
  rw [byteAt_append_right, byteAt_append_right]

theorem read_u32le_shift (l r : List Nat) (k : Nat) :
    read_u32le (l ++ r) (l.length + k) = read_u32le r k := by
  unfold read_u32le
  rw [show l.length + k + 1 = l.length + (k + 1) by omega,
      show l.length + k + 2 = l.length + (k + 2) by omega,
      show l.length + k + 3 = l.length + (k + 3) by omega]
  rw [byteAt_append_right, byteAt_append_right, byteAt_append_right, byteAt_append_right]

theorem byteAt_lt : ∀ (l : List Nat) (n : Nat), (∀ b ∈ l, b < 256) → byteAt l n < 256
  | [], _, _ => by simp [byteAt]
  | b :: _, 0, h => h b (by simp)
  | _ :: l, n + 1, h => byteAt_lt l n (fun b hb => h b (by simp [hb]))

theorem read_u8_lt (f : List Nat) (off : Nat) (h : ∀ b ∈ f, b < 256) :
    read_u8 f off < 256 := byteAt_lt f off h

theorem read_u16le_lt (f : List Nat) (off : Nat) (h : ∀ b ∈ f, b < 256) :
    read_u16le f off < 65536 := by
  have h0 := byteAt_lt f off h
  have h1 := byteAt_lt f (off + 1) h
  unfold read_u16le
  omega

theorem read_u32le_lt (f : List Nat) (off : Nat) (h : ∀ b ∈ f, b < 256) :
    read_u32le f off < 4294967296 := by
  have h0 := byteAt_lt f off h
  have h1 := byteAt_lt f (off + 1) h
  have h2 := byteAt_lt f (off + 2) h
  have h3 := byteAt_lt f (off + 3) h
  unfold read_u32le
  omega

theorem read_u16le_u16le (v : Nat) (r : List Nat) :
    read_u16le (u16le v ++ r) 0 = v % 65536 := by
  have h : read_u16le (u16le v ++ r) 0 = v % 256 + 256 * (v / 256 % 256) := rfl
  rw [h]; omega

theorem read_u32le_u32le (v : Nat) (r : List Nat) :
    read_u32le (u32le v ++ r) 0 = v % 4294967296 := by
  have h : read_u32le (u32le v ++ r) 0 =
      v % 256 + 256 * (v / 256 % 256) + 65536 * (v / 65536 % 256) +
        16777216 * (v / 16777216 % 256) := rfl
  rw [h]; omega

theorem take_len (a rest : List Nat) (k : Nat) (h : a.length = k) :
    (a ++ rest).take k = a := by
  subst h; exact List.take_left a rest

theorem drop_len (a rest : List Nat) (k : Nat) (h : a.length = k) :
    (a ++ rest).drop k = rest := by
  subst h; exact List.drop_left a rest

/-!
Audio-container codec: `write_wav_msadpcm` (synthesis, extract_kwb_multi.py)
and `read_wav_data` (parsing, repack_kwb_multi.py).
-/

/-- Standard Microsoft ADPCM coefficient pairs (`coeffs` in the source). -/
def msadpcm_coeffs : List (Int × Int) :=
  [(256, 0), (512, -256), (0, 0), (192, 64), (240, 0), (460, -208), (392, -232)]

/-- Byte encoding of the coefficient table, `struct.pack('<hh', c1, c2)` per pair. -/
def coeffBytes : List Nat := (msadpcm_coeffs.map fun p => s16le p.1 ++ s16le p.2).flatten

/-- Samples-per-block formula of `write_wav_msadpcm`:
`(block_align - 7 * channels) * 2 // channels + 2` in Python integer
arithmetic (floor division, here `Int.fdiv`). -/
def samples_per_block (channels block_align : Nat) : Int :=
  (((block_align : Int) - 7 * channels) * 2).fdiv channels + 2

/-- Byte-rate formula of `write_wav_msadpcm`:
`(sample_rate * block_align) // samples_per_block`. -/
def wav_byte_rate (channels sample_rate block_align : Nat) : Int :=
  ((sample_rate : Int) * block_align).fdiv (samples_per_block channels block_align)

/-- Body of the fmt chunk (50 bytes): format tag 2, channels, sample rate,
byte rate, block align, 4 bits per sample, cbSize 32, samples per block,
7 coefficient pairs. -/
def fmtBody (channels sample_rate block_align : Nat) : List Nat :=
  u16le 2 ++ u16le channels ++ u32le sample_rate ++
  u32leI (wav_byte_rate channels sample_rate block_align) ++
  u16le block_align ++ u16le 4 ++ u16le 32 ++
  u16leI (samples_per_block channels block_align) ++ u16le 7 ++ coeffBytes

/-- Models `write_wav_msadpcm` of extract_kwb_multi.py: the full byte
sequence of the emitted file.  The source writes a placeholder RIFF size
and patches it to `file_size - 8` at the end; the final patched value
`70 + data.length` is emitted directly here. -/
def write_wav_msadpcm (data : List Nat) (channels sample_rate block_align : Nat) : List Nat :=
  [82, 73, 70, 70] ++ u32le (70 + data.length) ++ [87, 65, 86, 69] ++
  [102, 109, 116, 32] ++ u32le 50 ++ fmtBody channels sample_rate block_align ++
  [100, 97, 116, 97] ++ u32le data.length ++ data

/-- Chunk-scanning loop of `read_wav_data`: read a 4-byte id and 4-byte
size; return the next `size` bytes when the id is `data`, otherwise skip
`size` bytes.  A short read breaks out returning the empty stream (the
source raises for a short size field and catches it, returning empty).
The fuel argument only bounds recursion; every iteration consumes at
least 8 bytes, so fuel equal to the remaining length never runs out
before a genuine exit. -/
def wavGo : Nat → List Nat → List Nat
  | 0, _ => []
  | fuel + 1, rest =>
    if rest.length < 4 then []
    else if rest.length < 8 then []
    else if rest.take 4 = [100, 97, 116, 97] then (rest.drop 8).take (read_u32le rest 4)
    else wavGo fuel ((rest.drop 8).drop (read_u32le rest 4))

/-- Models `read_wav_data` of repack_kwb_multi.py: checks the RIFF and
WAVE tags, then scans chunks for the `data` section; every failure path
returns the empty stream. -/
def read_wav_data (file : List Nat) : List Nat :=
  if file.take 4 = [82, 73, 70, 70] then
    if (file.drop 8).take 4 = [87, 65, 86, 69] then
      wavGo (file.drop 12).length (file.drop 12)
    else []
  else []

theorem coeffBytes_length : coeffBytes.length = 28 := by decide

theorem fmtBody_length (channels sample_rate block_align : Nat) :
    (fmtBody channels sample_rate block_align).length = 50 := by
  simp [fmtBody, u16le, u32le, u16leI, u32leI, coeffBytes_length]

theorem wavGo_succ (fuel : Nat) (rest : List Nat) :
    wavGo (fuel + 1) rest =
      if rest.length < 4 then []
      else if rest.length < 8 then []
      else if rest.take 4 = [100, 97, 116, 97] then (rest.drop 8).take (read_u32le rest 4)
      else wavGo fuel ((rest.drop 8).drop (read_u32le rest 4)) := rfl

/-- Round trip of the audio-container codec: parsing a synthesized
container returns the original stream bytes. -/
theorem wav_roundtrip (x : List Nat) (c sr ba : Nat) (hx : x.length < 4294967296) :
    read_wav_data (write_wav_msadpcm x c sr ba) = x := by
  have hW : write_wav_msadpcm x c sr ba =
      [82, 73, 70, 70] ++ (u32le (70 + x.length) ++ ([87, 65, 86, 69] ++
        ([102, 109, 116, 32] ++ (u32le 50 ++ (fmtBody c sr ba ++
          ([100, 97, 116, 97] ++ (u32le x.length ++ x))))))) := by
    simp [write_wav_msadpcm, List.append_assoc]
  have h4 : (write_wav_msadpcm x c sr ba).take 4 = [82, 73, 70, 70] := by
    rw [hW]; exact take_len _ _ 4 rfl
  have hW8 : write_wav_msadpcm x c sr ba =
      ([82, 73, 70, 70] ++ u32le (70 + x.length)) ++ ([87, 65, 86, 69] ++
        ([102, 109, 116, 32] ++ (u32le 50 ++ (fmtBody c sr ba ++
          ([100, 97, 116, 97] ++ (u32le x.length ++ x)))))) := by
    simp [write_wav_msadpcm, List.append_assoc]
  have hwave : ((write_wav_msadpcm x c sr ba).drop 8).take 4 = [87, 65, 86, 69] := by
    rw [hW8, drop_len _ _ 8 (by simp [u32le])]; exact take_len _ _ 4 rfl
  have hW12 : write_wav_msadpcm x c sr ba =
      ([82, 73, 70, 70] ++ u32le (70 + x.length) ++ [87, 65, 86, 69]) ++
        ([102, 109, 116, 32] ++ (u32le 50 ++ (fmtBody c sr ba ++
          ([100, 97, 116, 97] ++ (u32le x.length ++ x))))) := by
    simp [write_wav_msadpcm, List.append_assoc]
  have hdrop12 : (write_wav_msadpcm x c sr ba).drop 12 =
      [102, 109, 116, 32] ++ (u32le 50 ++ (fmtBody c sr ba ++
        ([100, 97, 116, 97] ++ (u32le x.length ++ x)))) := by
    rw [hW12]; exact drop_len _ _ 12 (by simp [u32le])
  rw [read_wav_data, h4, if_pos rfl, hwave, if_pos rfl, hdrop12]
  set L1 : List Nat := [102, 109, 116, 32] ++ (u32le 50 ++ (fmtBody c sr ba ++
    ([100, 97, 116, 97] ++ (u32le x.length ++ x)))) with hL1
  have hlen : L1.length = 66 + x.length := by
    simp [hL1, u32le, fmtBody_length]; omega
  rw [hlen, show 66 + x.length = (65 + x.length) + 1 by omega, wavGo_succ]
  rw [if_neg (by omega : ¬ L1.length < 4), if_neg (by omega : ¬ L1.length < 8)]
  have htk : L1.take 4 = [102, 109, 116, 32] := take_len _ _ 4 rfl
  rw [htk, if_neg (by decide)]
  have hsz : read_u32le L1 4 = 50 := by
    rw [hL1, show (4 : Nat) = ([102, 109, 116, 32] : List Nat).length + 0 from rfl,
      read_u32le_shift, read_u32le_u32le]
  rw [hsz]
  have hg : L1 = ([102, 109, 116, 32] ++ u32le 50) ++ (fmtBody c sr ba ++
      ([100, 97, 116, 97] ++ (u32le x.length ++ x))) := by
    simp [hL1, List.append_assoc]
  have hdr : (L1.drop 8).drop 50 = [100, 97, 116, 97] ++ (u32le x.length ++ x) := by
    rw [hg, drop_len _ _ 8 (by simp [u32le]), drop_len _ _ 50 (fmtBody_length c sr ba)]
  rw [hdr]
  set L2 : List Nat := [100, 97, 116, 97] ++ (u32le x.length ++ x) with hL2
  have hlen2 : L2.length = 8 + x.length := by simp [hL2, u32le]; omega
  rw [show 65 + x.length = (64 + x.length) + 1 by omega, wavGo_succ]
  rw [if_neg (by omega : ¬ L2.length < 4), if_neg (by omega : ¬ L2.length < 8)]
  have htk2 : L2.take 4 = [100, 97, 116, 97] := take_len _ _ 4 rfl
  rw [htk2, if_pos rfl]
  have hsz2 : read_u32le L2 4 = x.length := by
    rw [hL2, show (4 : Nat) = ([100, 97, 116, 97] : List Nat).length + 0 from rfl,
      read_u32le_shift, read_u32le_u32le, Nat.mod_eq_of_lt hx]
  rw [hsz2, hL2]
  rw [show ([100, 97, 116, 97] ++ (u32le x.length ++ x) : List Nat) =
      ([100, 97, 116, 97] ++ u32le x.length) ++ x by simp [List.append_assoc]]
  rw [drop_len _ _ 8 (by simp [u32le])]
  exact List.take_length x

/-- C2: for every byte sequence `x` and every valid parameter tuple
(positive channel count, block size at least 7 bytes per channel, all
fields within their packed widths, stream length below 2^32), parsing the
synthesized audio container returns exactly `x`: the data section's
payload is the input stream unmodified, located by the tag scan of
`read_wav_data`. -/
theorem C2_codec_roundtrip (x : List Nat) (channels sample_rate block_align : Nat)
    (hch : 0 < channels) (hba : 7 * channels ≤ block_align)
    (hch16 : channels < 65536) (hsr : sample_rate < 4294967296)
    (hba16 : block_align < 65536)
    (hspb : samples_per_block channels block_align < 65536)
    (hbr : wav_byte_rate channels sample_rate block_align < 4294967296)
    (hx : x.length < 4294967296) :
    read_wav_data (write_wav_msadpcm x channels sample_rate block_align) = x :=
  wav_roundtrip x channels sample_rate block_align hx

/-- Witness for C2 at a concrete stream and parameter tuple. -/
theorem C2_codec_roundtrip_witness :
    read_wav_data (write_wav_msadpcm [7, 3, 9] 2 44100 512) = [7, 3, 9] :=
  C2_codec_roundtrip [7, 3, 9] 2 44100 512 (by decide) (by decide) (by decide)
    (by decide) (by decide) (by decide) (by decide) (by decide)

theorem samples_per_block_nonneg (channels block_align : Nat)
    (hba : 7 * channels ≤ block_align) :
    0 ≤ samples_per_block channels block_align := by
  unfold samples_per_block
  have h1 : (0 : Int) ≤ ((block_align : Int) - 7 * channels) * 2 := by
    have : (7 * channels : Int) ≤ (block_align : Int) := by exact_mod_cast hba
    nlinarith
  have h2 : (0 : Int) ≤ (((block_align : Int) - 7 * channels) * 2).fdiv channels :=
    Int.fdiv_nonneg h1 (by positivity)
  omega

theorem wav_byte_rate_nonneg (channels sample_rate block_align : Nat)
    (hba : 7 * channels ≤ block_align) :
    0 ≤ wav_byte_rate channels sample_rate block_align := by
  unfold wav_byte_rate
  exact Int.fdiv_nonneg (by positivity) (samples_per_block_nonneg channels block_align hba)

theorem write_wav_split38 (data : List Nat) (c sr ba : Nat) :
    write_wav_msadpcm data c sr ba =
      ([82, 73, 70, 70] ++ u32le (70 + data.length) ++ [87, 65, 86, 69] ++
        [102, 109, 116, 32] ++ u32le 50 ++ u16le 2 ++ u16le c ++ u32le sr ++
        u32leI (wav_byte_rate c sr ba) ++ u16le ba ++ u16le 4 ++ u16le 32) ++
      (u16leI (samples_per_block c ba) ++
        (u16le 7 ++ coeffBytes ++ [100, 97, 116, 97] ++ u32le data.length ++ data)) := by
  simp [write_wav_msadpcm, fmtBody, List.append_assoc]

theorem write_wav_split28 (data : List Nat) (c sr ba : Nat) :
    write_wav_msadpcm data c sr ba =
      ([82, 73, 70, 70] ++ u32le (70 + data.length) ++ [87, 65, 86, 69] ++
        [102, 109, 116, 32] ++ u32le 50 ++ u16le 2 ++ u16le c ++ u32le sr) ++
      (u32leI (wav_byte_rate c sr ba) ++
        (u16le ba ++ u16le 4 ++ u16le 32 ++ u16leI (samples_per_block c ba) ++
          u16le 7 ++ coeffBytes ++ [100, 97, 116, 97] ++ u32le data.length ++ data)) := by
  simp [write_wav_msadpcm, fmtBody, List.append_assoc]

/-- C4: the samples-per-block field of the synthesized container (the
16-bit little-endian value at offset 38) equals
`((block_align - 7 * channels) * 2) / channels + 2` in integer (floor)
arithmetic, the byte-rate field (32-bit at offset 28) equals
`sample_rate * block_align / samples_per_block`, and in particular
channels 2 with block alignment 512 gives 500 samples per block.  The
hypotheses state validity of the parameter tuple: positive channel count,
block alignment at least 7 bytes per channel, and both derived values
within their packed field widths. -/
theorem C4_samples_per_block_field (data : List Nat) (channels sample_rate block_align : Nat)
    (hch : 0 < channels) (hba : 7 * channels ≤ block_align)
    (hspb : samples_per_block channels block_align < 65536)
    (hbr : wav_byte_rate channels sample_rate block_align < 4294967296) :
    (read_u16le (write_wav_msadpcm data channels sample_rate block_align) 38 : Int) =
      samples_per_block channels block_align ∧
    (read_u32le (write_wav_msadpcm data channels sample_rate block_align) 28 : Int) =
      wav_byte_rate channels sample_rate block_align ∧
    samples_per_block 2 512 = 500 := by
  have hspb0 := samples_per_block_nonneg channels block_align hba
  have hbr0 := wav_byte_rate_nonneg channels sample_rate block_align hba
  refine ⟨?_, ?_, by decide⟩
  · rw [write_wav_split38]
    have hlen : ([82, 73, 70, 70] ++ u32le (70 + data.length) ++ [87, 65, 86, 69] ++
        [102, 109, 116, 32] ++ u32le 50 ++ u16le 2 ++ u16le channels ++ u32le sample_rate ++
        u32leI (wav_byte_rate channels sample_rate block_align) ++ u16le block_align ++
        u16le 4 ++ u16le 32 : List Nat).length = 38 := by
      simp [u32le, u16le, u32leI, u16leI]
    rw [show (38 : Nat) = 38 + 0 by rfl, ← hlen, read_u16le_shift]
    unfold u16leI
    rw [read_u16le_u16le, Int.emod_eq_of_lt hspb0 hspb]
    rw [Nat.mod_eq_of_lt (by omega : (samples_per_block channels block_align).toNat < 65536)]
    exact Int.toNat_of_nonneg hspb0
  · rw [write_wav_split28]
    have hlen : ([82, 73, 70, 70] ++ u32le (70 + data.length) ++ [87, 65, 86, 69] ++
        [102, 109, 116, 32] ++ u32le 50 ++ u16le 2 ++ u16le channels ++
        u32le sample_rate : List Nat).length = 28 := by
      simp [u32le, u16le]
    rw [show (28 : Nat) = 28 + 0 by rfl, ← hlen, read_u32le_shift]
    unfold u32leI
    rw [read_u32le_u32le]
    have h1 : wav_byte_rate channels sample_rate block_align % 4294967296 =
        wav_byte_rate channels sample_rate block_align :=
      Int.emod_eq_of_lt hbr0 hbr
    rw [h1]
    rw [Nat.mod_eq_of_lt (by omega :
      (wav_byte_rate channels sample_rate block_align).toNat < 4294967296)]
    exact Int.toNat_of_nonneg hbr0

/-- Witness for C4 at channels 2, block alignment 512, sample rate 44100. -/
theorem C4_samples_per_block_field_witness :
    (read_u16le (write_wav_msadpcm [5] 2 44100 512) 38 : Int) = samples_per_block 2 512 ∧
    (read_u32le (write_wav_msadpcm [5] 2 44100 512) 28 : Int) = wav_byte_rate 2 44100 512 ∧
    samples_per_block 2 512 = 500 :=
  C4_samples_per_block_field [5] 2 44100 512 (by decide) (by decide) (by decide) (by decide)

/-!
KWB2 bank model.  `parse_kwb2` (extract_kwb_multi.py) produces the
manifest entries; `build_kwb_header_and_body` (repack_kwb_multi.py)
rebuilds the header and body blobs from them.  A subsound's extracted
audio file is carried as its byte contents (`wavFile`); `none` models a
file that is missing at rebuild time.
-/

/-- One subsound record of the manifest (`subsound_info` in the source).
`wavFile` holds the bytes of the referenced standalone audio file. -/
structure SubsoundInfo where
  sample_rate : Nat
  channels : Nat
  block_size : Nat
  original_stream_size : Nat
  codec : Nat
  wavFile : Option (List Nat)
deriving DecidableEq, Repr

/-- One sound entry of the manifest (`entry_info` in the source).
`version` is absent for a zero-offset placeholder entry. -/
structure SoundEntry where
  entry_index : Nat
  version : Option Nat
  subsounds : List SubsoundInfo
deriving DecidableEq, Repr

/-- One bank chunk of the manifest (`chunk_info` in the source). -/
structure ChunkInfo where
  sound_entries : List SoundEntry
deriving DecidableEq, Repr

/-- Models one iteration of the subsound loop of `parse_kwb2`: at record
slot `j` (record base `base`, record size `ssize`), read the codec byte;
for codec 0x10 read the format fields and slice the audio stream out of
the body chunk, emitting the standalone audio file; any other codec
produces no manifest record. -/
def parseSub (f : List Nat) (body_offset base ssize j : Nat) : Option SubsoundInfo :=
  let off := base + j * ssize
  let codec := read_u8 f (off + 2)
  if codec = 16 then
    let sample_rate := read_u16le f off
    let channels := read_u8 f (off + 3)
    let block_size := read_u16le f (off + 4)
    let stream_rel_offset := read_u32le f (off + 16)
    let stream_size := read_u32le f (off + 20)
    let audio := (f.drop (body_offset + stream_rel_offset)).take stream_size
    some ⟨sample_rate, channels, block_size, stream_size, codec,
      some (write_wav_msadpcm audio channels sample_rate block_size)⟩
  else none

/-- Models one iteration of the sound-entry loop of `parse_kwb2`: a zero
relative offset in the bank's table yields an empty placeholder entry;
otherwise the version selects a fixed record layout (version below
0xc000: start 0x2c, size 0x48) or a table-driven one read from the entry
header, and the subsound records are walked. -/
def parseSound (f : List Nat) (head_offset body_offset i : Nat) : SoundEntry :=
  let sound_rel_offset := read_u32le f (head_offset + 24 + i * 4)
  if sound_rel_offset = 0 then ⟨i, none, []⟩
  else
    let sa := head_offset + sound_rel_offset
    let version := read_u16le f sa
    let subsounds_count := read_u8 f (sa + 3)
    let sstart := if version < 49152 then 44 else read_u16le f (sa + 44)
    let ssize := if version < 49152 then 72 else read_u16le f (sa + 46)
    ⟨i, some version,
      (List.range subsounds_count).filterMap (parseSub f body_offset (sa + sstart) ssize)⟩

/-- Models `parse_kwb2`: sound count at header offset 6, offset table at
header offset 0x18. -/
def parse_kwb2 (f : List Nat) (head_offset body_offset : Nat) : ChunkInfo :=
  ⟨(List.range (read_u16le f (head_offset + 6))).map (parseSound f head_offset body_offset)⟩

/-- States that every subsound record of every sound entry of the bank at
`head_offset` carries codec id 0x10, following exactly the traversal of
`parse_kwb2`. -/
def allCodec10 (f : List Nat) (head_offset : Nat) : Prop :=
  ∀ i < read_u16le f (head_offset + 6),
    read_u32le f (head_offset + 24 + i * 4) ≠ 0 →
    ∀ j < read_u8 f (head_offset + read_u32le f (head_offset + 24 + i * 4) + 3),
      read_u8 f (head_offset + read_u32le f (head_offset + 24 + i * 4) +
        (if read_u16le f (head_offset + read_u32le f (head_offset + 24 + i * 4)) < 49152
          then 44
          else read_u16le f (head_offset + read_u32le f (head_offset + 24 + i * 4) + 44)) +
        j * (if read_u16le f (head_offset + read_u32le f (head_offset + 24 + i * 4)) < 49152
          then 72
          else read_u16le f (head_offset + read_u32le f (head_offset + 24 + i * 4) + 46)) +
        2) = 16

instance decAllCodec10 (f : List Nat) (head_offset : Nat) :
    Decidable (allCodec10 f head_offset) := by
  unfold allCodec10
  infer_instance

/-- State of the deduplicating blob builder: the accumulating body buffer
(`body_data`) and the digest map (`data_map`).  The content hash is
modelled by the content itself, matching the source's use of a
collision-resistant digest of the raw bytes as the key. -/
structure DedupState where
  body : List Nat
  map : List (List Nat × Nat × Nat)
deriving DecidableEq, Repr

/-- Lookup in the digest map. -/
def mapLookup : List (List Nat × Nat × Nat) → List Nat → Option (Nat × Nat)
  | [], _ => none
  | (k, p) :: rest, r => if k = r then some p else mapLookup rest r

/-- Models the deduplication step of `build_kwb_header_and_body` (lines
105-117): a digest hit returns the stored (offset, size) pair and leaves
the buffer unchanged; a miss appends the bytes and records (buffer length
before the append, byte length). -/
def dedupInsert (st : DedupState) (raw : List Nat) : (Nat × Nat) × DedupState :=
  match mapLookup st.map raw with
  | some p => (p, st)
  | none => ((st.body.length, raw.length),
      ⟨st.body ++ raw, (raw, st.body.length, raw.length) :: st.map⟩)

/-- Folds `dedupInsert` over a list of raw streams, returning the pair
assigned to each stream in order; this is the sequence of deduplication
steps one bank rebuild performs. -/
def dedupRun (st : DedupState) : List (List Nat) → List (Nat × Nat) × DedupState
  | [] => ([], st)
  | r :: rs =>
    let pr := dedupInsert st r
    let rest := dedupRun pr.2 rs
    (pr.1 :: rest.1, rest.2)

/-- Raw stream obtained for a subsound at rebuild: empty when the
referenced file is missing, otherwise the result of re-parsing it with
`read_wav_data`. -/
def rawDataOf (sub : SubsoundInfo) : List Nat :=
  match sub.wavFile with
  | none => []
  | some w => read_wav_data w

/-- The fixed 0x48-byte subsound record emitted by
`build_kwb_header_and_body`: sample rate, codec, channels, block size,
ten zero bytes, stream offset, stream size, zero padding to 0x48. -/
def mkSubRecord (sub : SubsoundInfo) (off sz : Nat) : List Nat :=
  u16le sub.sample_rate ++ u8b sub.codec ++ u8b sub.channels ++ u16le sub.block_size ++
  List.replicate 10 0 ++ u32le off ++ u32le sz ++ List.replicate 48 0

/-- Models the subsound loop of `build_kwb_header_and_body`: each
subsound's stream goes through the deduplicating builder and a fixed-size
record is appended. -/
def buildSubs : DedupState → List SubsoundInfo → List Nat × DedupState
  | st, [] => ([], st)
  | st, sub :: rest =>
    let pr := dedupInsert st (rawDataOf sub)
    let r := buildSubs pr.2 rest
    (mkSubRecord sub pr.1.1 pr.1.2 ++ r.1, r.2)

/-- The 0x2c-byte sound-entry header emitted by the rebuild: version
(default 0x8000), a zero byte, the subsound count, zero padding to 0x2c. -/
def mkEntryHead (e : SoundEntry) : List Nat :=
  u16le (e.version.getD 32768) ++ [0] ++ u8b e.subsounds.length ++ List.replicate 40 0

/-- Models one iteration of the sound-entry loop of the rebuild. -/
def buildEntry (st : DedupState) (e : SoundEntry) : List Nat × DedupState :=
  let s := buildSubs st e.subsounds
  (mkEntryHead e ++ s.1, s.2)

/-- Models the sound-entry loop of the rebuild, threading the
deduplication state across entries of the bank. -/
def buildEntriesList : DedupState → List SoundEntry → List (List Nat) × DedupState
  | st, [] => ([], st)
  | st, e :: rest =>
    let b := buildEntry st e
    let r := buildEntriesList b.2 rest
    (b.1 :: r.1, r.2)

/-- Sound-entry offsets assigned sequentially from `start`
(`current_entry_offset` in the source). -/
def offsetsFrom (start : Nat) : List (List Nat) → List Nat
  | [] => []
  | b :: bs => start :: offsetsFrom (start + b.length) bs

/-- The fixed 0x18-byte bank-header prologue: KWB2 magic, two zero bytes,
the sound count at offset 6, sixteen zero bytes. -/
def kwbPrologue (n : Nat) : List Nat :=
  [75, 87, 66, 50, 0, 0] ++ u16le n ++ List.replicate 16 0

/-- Models `build_kwb_header_and_body`: returns (header blob, body blob).
The header is the prologue, the offset table (entries placed sequentially
after the table), and the concatenated sound-entry buffers; the body is
the deduplicated stream data. -/
def build_kwb_header_and_body (M : ChunkInfo) : List Nat × List Nat :=
  let n := M.sound_entries.length
  let eb := buildEntriesList ⟨[], []⟩ M.sound_entries
  let offs := offsetsFrom (24 + n * 4) eb.1
  (kwbPrologue n ++ (offs.map u32le).flatten ++ eb.1.flatten, eb.2.body)

-- Decode lemmas for the emitted fixed-size records.

theorem mkSubRecord_length (s : SubsoundInfo) (off sz : Nat) :
    (mkSubRecord s off sz).length = 72 := by
  simp [mkSubRecord, u16le, u8b, u32le]

theorem mkSub_read_sr (s : SubsoundInfo) (off sz : Nat) (r : List Nat) :
    read_u16le (mkSubRecord s off sz ++ r) 0 = s.sample_rate % 65536 := by
  have h : read_u16le (mkSubRecord s off sz ++ r) 0 =
      s.sample_rate % 256 + 256 * (s.sample_rate / 256 % 256) := rfl
  rw [h]; omega

theorem mkSub_read_codec (s : SubsoundInfo) (off sz : Nat) (r : List Nat) :
    read_u8 (mkSubRecord s off sz ++ r) 2 = s.codec % 256 := rfl

theorem mkSub_read_ch (s : SubsoundInfo) (off sz : Nat) (r : List Nat) :
    read_u8 (mkSubRecord s off sz ++ r) 3 = s.channels % 256 := rfl

theorem mkSub_read_bs (s : SubsoundInfo) (off sz : Nat) (r : List Nat) :
    read_u16le (mkSubRecord s off sz ++ r) 4 = s.block_size % 65536 := by
  have h : read_u16le (mkSubRecord s off sz ++ r) 4 =
      s.block_size % 256 + 256 * (s.block_size / 256 % 256) := rfl
  rw [h]; omega

theorem mkSub_read_off (s : SubsoundInfo) (off sz : Nat) (r : List Nat) :
    read_u32le (mkSubRecord s off sz ++ r) 16 = off % 4294967296 := by
  have h : read_u32le (mkSubRecord s off sz ++ r) 16 =
      off % 256 + 256 * (off / 256 % 256) + 65536 * (off / 65536 % 256) +
        16777216 * (off / 16777216 % 256) := rfl
  rw [h]; omega

theorem mkSub_read_sz (s : SubsoundInfo) (off sz : Nat) (r : List Nat) :
    read_u32le (mkSubRecord s off sz ++ r) 20 = sz % 4294967296 := by
  have h : read_u32le (mkSubRecord s off sz ++ r) 20 =
      sz % 256 + 256 * (sz / 256 % 256) + 65536 * (sz / 65536 % 256) +
        16777216 * (sz / 16777216 % 256) := rfl
  rw [h]; omega

theorem mkEntryHead_length (e : SoundEntry) : (mkEntryHead e).length = 44 := by
  simp [mkEntryHead, u16le, u8b]

theorem mkEntryHead_read_version (e : SoundEntry) (r : List Nat) :
    read_u16le (mkEntryHead e ++ r) 0 = e.version.getD 32768 % 65536 := by
  have h : read_u16le (mkEntryHead e ++ r) 0 =
      e.version.getD 32768 % 256 + 256 * (e.version.getD 32768 / 256 % 256) := rfl
  rw [h]; omega

theorem mkEntryHead_read_count (e : SoundEntry) (r : List Nat) :
    read_u8 (mkEntryHead e ++ r) 3 = e.subsounds.length % 256 := rfl

/-!
Invariants of the deduplicating blob builder.
-/

/-- Well-formedness of a deduplication state: every recorded (offset,
size) pair points at a region of the body buffer holding exactly the
keyed content. -/
def WFd (st : DedupState) : Prop :=
  ∀ k o s, mapLookup st.map k = some (o, s) →
    s = k.length ∧ o + s ≤ st.body.length ∧ (st.body.drop o).take s = k

theorem WFd_empty : WFd ⟨[], []⟩ := by
  intro k o s h
  simp [mapLookup] at h

theorem slice_stable (B ext : List Nat) (o s : Nat) (h : o + s ≤ B.length) :
    ((B ++ ext).drop o).take s = (B.drop o).take s := by
  rw [List.drop_append_of_le_length (by omega)]
  rw [List.take_append_of_le_length (by simp; omega)]

theorem dedupInsert_body (st : DedupState) (raw : List Nat) :
    ∃ ext, (dedupInsert st raw).2.body = st.body ++ ext := by
  unfold dedupInsert
  cases hm : mapLookup st.map raw with
  | some p => exact ⟨[], by simp⟩
  | none => exact ⟨raw, rfl⟩

theorem dedupInsert_wf (st : DedupState) (raw : List Nat) (h : WFd st) :
    WFd (dedupInsert st raw).2 := by
  unfold dedupInsert
  cases hm : mapLookup st.map raw with
  | some p => exact h
  | none =>
    intro k o s hk
    simp only [mapLookup] at hk
    by_cases hkr : raw = k
    · subst hkr
      rw [if_pos rfl] at hk
      cases hk
      refine ⟨rfl, by simp, ?_⟩
      rw [List.drop_append_of_le_length (le_refl _)]
      simp
    · rw [if_neg hkr] at hk
      obtain ⟨h1, h2, h3⟩ := h k o s hk
      exact ⟨h1, by simp; omega, by rw [slice_stable st.body raw o s h2]; exact h3⟩

theorem dedupInsert_lookup (st : DedupState) (raw : List Nat) :
    mapLookup (dedupInsert st raw).2.map raw = some (dedupInsert st raw).1 := by
  unfold dedupInsert
  cases hm : mapLookup st.map raw with
  | some p => exact hm
  | none => simp [mapLookup]

theorem dedupInsert_lookup_mono (st : DedupState) (raw k : List Nat) (p : Nat × Nat)
    (h : mapLookup st.map k = some p) :
    mapLookup (dedupInsert st raw).2.map k = some p := by
  unfold dedupInsert
  cases hm : mapLookup st.map raw with
  | some q => exact h
  | none =>
    simp only [mapLookup]
    rw [if_neg (fun he => by subst he; rw [hm] at h; cases h)]
    exact h

theorem dedupInsert_size (st : DedupState) (raw : List Nat) (h : WFd st) :
    (dedupInsert st raw).1.2 = raw.length := by
  unfold dedupInsert
  cases hm : mapLookup st.map raw with
  | some p => exact (h raw p.1 p.2 (by rw [hm])).1
  | none => rfl

theorem dedupRun_body (st : DedupState) : ∀ raws : List (List Nat),
    ∃ ext, (dedupRun st raws).2.body = st.body ++ ext := by
  intro raws
  induction raws generalizing st with
  | nil => exact ⟨[], by simp [dedupRun]⟩
  | cons r rs ih =>
    obtain ⟨e1, he1⟩ := dedupInsert_body st r
    obtain ⟨e2, he2⟩ := ih (dedupInsert st r).2
    exact ⟨e1 ++ e2, by simp [dedupRun, he2, he1, List.append_assoc]⟩

theorem dedupRun_wf (raws : List (List Nat)) : ∀ st : DedupState, WFd st →
    WFd (dedupRun st raws).2 := by
  induction raws with
  | nil => intro st h; exact h
  | cons r rs ih => intro st h; exact ih _ (dedupInsert_wf st r h)

theorem dedupRun_lookup_mono (raws : List (List Nat)) :
    ∀ (st : DedupState) (k : List Nat) (p : Nat × Nat),
    mapLookup st.map k = some p → mapLookup (dedupRun st raws).2.map k = some p := by
  induction raws with
  | nil => intro st k p h; exact h
  | cons r rs ih =>
    intro st k p h
    exact ih _ k p (dedupInsert_lookup_mono st r k p h)

theorem dedupRun_pairs (raws : List (List Nat)) : ∀ st : DedupState,
    ∀ pr ∈ (dedupRun st raws).1.zip raws,
      mapLookup (dedupRun st raws).2.map pr.2 = some pr.1 := by
  induction raws with
  | nil => intro st pr h; simp [dedupRun] at h
  | cons r rs ih =>
    intro st pr h
    simp only [dedupRun, List.zip_cons_cons, List.mem_cons] at h
    rcases h with h | h
    · subst h
      exact dedupRun_lookup_mono rs _ r _ (dedupInsert_lookup st r)
    · exact ih _ pr h

/-- C3: the deduplicating blob builder's insert returns the stored
(offset, length) pair without touching the buffer on a digest hit, and on
a miss appends the bytes and returns (pre-append buffer length, byte
length); consequently, over one bank rebuild's insertion sequence, equal
streams receive equal (offset, length) pairs naming one region whose
slice of the final body is exactly that content, and distinct streams
never receive the same pair. -/
theorem C3_dedup_insert_spec :
    (∀ (st : DedupState) (raw : List Nat) (o s : Nat),
      mapLookup st.map raw = some (o, s) → dedupInsert st raw = ((o, s), st)) ∧
    (∀ (st : DedupState) (raw : List Nat), mapLookup st.map raw = none →
      dedupInsert st raw = ((st.body.length, raw.length),
        ⟨st.body ++ raw, (raw, st.body.length, raw.length) :: st.map⟩)) ∧
    (∀ raws : List (List Nat), ∀ pr ∈ (dedupRun ⟨[], []⟩ raws).1.zip raws,
      pr.1.2 = pr.2.length ∧
      ((dedupRun ⟨[], []⟩ raws).2.body.drop pr.1.1).take pr.1.2 = pr.2 ∧
      ∀ q ∈ (dedupRun ⟨[], []⟩ raws).1.zip raws,
        (pr.2 = q.2 → pr.1 = q.1) ∧ (pr.2 ≠ q.2 → pr.1 ≠ q.1)) := by
  refine ⟨?_, ?_, ?_⟩
  · intro st raw o s h
    unfold dedupInsert
    rw [h]
  · intro st raw h
    unfold dedupInsert
    rw [h]
  · intro raws pr hpr
    have hwf : WFd (dedupRun ⟨[], []⟩ raws).2 := dedupRun_wf raws _ WFd_empty
    have hlk := dedupRun_pairs raws ⟨[], []⟩ pr hpr
    obtain ⟨h1, h2, h3⟩ := hwf pr.2 pr.1.1 pr.1.2 (by rw [hlk])
    refine ⟨h1, h3, ?_⟩
    intro q hq
    have hlkq := dedupRun_pairs raws ⟨[], []⟩ q hq
    obtain ⟨g1, g2, g3⟩ := hwf q.2 q.1.1 q.1.2 (by rw [hlkq])
    constructor
    · intro he
      rw [he] at hlk
      rw [hlk] at hlkq
      exact Option.some.inj hlkq
    · intro hne he
      apply hne
      rw [← h3, ← g3, he]

/-- Witness for C3: a digest hit returns the stored pair and leaves the
state untouched. -/
theorem C3_dedup_insert_spec_witness :
    dedupInsert ⟨[5, 6], [([9], 0, 1)]⟩ [9] = ((0, 1), ⟨[5, 6], [([9], 0, 1)]⟩) :=
  C3_dedup_insert_spec.1 ⟨[5, 6], [([9], 0, 1)]⟩ [9] 0 1 (by decide)

/-- C10: a zero-length stream participates in deduplication like any
other content: its first insertion records the pair (body length at that
moment, 0) and appends nothing, and every later empty stream inserted
within the same bank rebuild receives that identical pair, so all
zero-length descriptors of one bank share one offset. -/
theorem C10_empty_stream_dedup :
    (∀ st : DedupState, mapLookup st.map [] = none →
      dedupInsert st [] = ((st.body.length, 0), ⟨st.body, ([], st.body.length, 0) :: st.map⟩)) ∧
    (∀ raws : List (List Nat), ∀ pr ∈ (dedupRun ⟨[], []⟩ raws).1.zip raws, pr.2 = [] →
      pr.1.2 = 0 ∧
      ∀ q ∈ (dedupRun ⟨[], []⟩ raws).1.zip raws, q.2 = [] → q.1 = pr.1) := by
  constructor
  · intro st h
    unfold dedupInsert
    rw [h]
    simp
  · intro raws pr hpr hemp
    have hwf : WFd (dedupRun ⟨[], []⟩ raws).2 := dedupRun_wf raws _ WFd_empty
    have hlk := dedupRun_pairs raws ⟨[], []⟩ pr hpr
    obtain ⟨h1, _, _⟩ := hwf pr.2 pr.1.1 pr.1.2 (by rw [hlk])
    refine ⟨by rw [h1, hemp]; rfl, ?_⟩
    intro q hq hqemp
    have hlkq := dedupRun_pairs raws ⟨[], []⟩ q hq
    rw [hqemp] at hlkq
    rw [hemp] at hlk
    rw [hlk] at hlkq
    exact (Option.some.inj hlkq).symm
/-- Witness for C10: first empty-stream insertion into a state with a
two-byte body records the pair (2, 0) and leaves the body unchanged. -/
theorem C10_empty_stream_dedup_witness :
    dedupInsert ⟨[1, 2], []⟩ [] = ((2, 0), ⟨[1, 2], [([], 2, 0)]⟩) :=
  C10_empty_stream_dedup.1 ⟨[1, 2], []⟩ (by decide)

/-- C8: a missing referenced file yields the empty raw stream, a file
failing either container tag check re-parses to the empty stream, and the
rebuild of a subsound whose raw stream is empty completes, emitting its
fixed-size record with stream-length field 0 (for any state whose digest
map can only associate size 0 to the empty content, as holds for every
reachable state). -/
theorem C8_missing_file_zero_stream :
    (∀ sub : SubsoundInfo, sub.wavFile = none → rawDataOf sub = []) ∧
    (∀ w : List Nat, w.take 4 ≠ [82, 73, 70, 70] → read_wav_data w = []) ∧
    (∀ w : List Nat, (w.drop 8).take 4 ≠ [87, 65, 86, 69] → read_wav_data w = []) ∧
    (∀ (st : DedupState) (sub : SubsoundInfo) (more : List SubsoundInfo),
      rawDataOf sub = [] →
      (∀ o s, mapLookup st.map [] = some (o, s) → s = 0) →
      ∃ off st', buildSubs st (sub :: more) =
        (mkSubRecord sub off 0 ++ (buildSubs st' more).1, (buildSubs st' more).2) ∧
        read_u32le (mkSubRecord sub off 0 ++ (buildSubs st' more).1) 20 = 0) := by
  refine ⟨?_, ?_, ?_, ?_⟩
  · intro sub h
    unfold rawDataOf
    rw [h]
  · intro w h
    unfold read_wav_data
    rw [if_neg h]
  · intro w h
    unfold read_wav_data
    by_cases h4 : w.take 4 = [82, 73, 70, 70]
    · rw [if_pos h4, if_neg h]
    · rw [if_neg h4]
  · intro st sub more hraw hst
    have key : ∃ off st', dedupInsert st [] = ((off, 0), st') := by
      cases hm : mapLookup st.map [] with
      | some p =>
        have hs0 : p.2 = 0 := hst p.1 p.2 (by rw [hm])
        refine ⟨p.1, st, ?_⟩
        unfold dedupInsert
        rw [hm, show p = (p.1, 0) by rw [← hs0]]
      | none =>
        refine ⟨st.body.length, ⟨st.body ++ [], ([], st.body.length, 0) :: st.map⟩, ?_⟩
        unfold dedupInsert
        rw [hm]
        rfl
    obtain ⟨off, st', hins⟩ := key
    refine ⟨off, st', ?_, by rw [mkSub_read_sz]⟩
    show (mkSubRecord sub (dedupInsert st (rawDataOf sub)).1.1
        (dedupInsert st (rawDataOf sub)).1.2 ++
        (buildSubs (dedupInsert st (rawDataOf sub)).2 more).1,
        (buildSubs (dedupInsert st (rawDataOf sub)).2 more).2) = _
    rw [hraw, hins]

/-- Witness for C8: rebuilding a single subsound whose file is missing
emits a record with stream-length field 0. -/
theorem C8_missing_file_zero_stream_witness :
    ∃ off st', buildSubs ⟨[], []⟩ [⟨100, 2, 512, 4, 16, none⟩] =
      (mkSubRecord ⟨100, 2, 512, 4, 16, none⟩ off 0 ++ (buildSubs st' []).1,
        (buildSubs st' []).2) ∧
      read_u32le (mkSubRecord ⟨100, 2, 512, 4, 16, none⟩ off 0 ++ (buildSubs st' []).1) 20 = 0 :=
  C8_missing_file_zero_stream.2.2.2 ⟨[], []⟩ ⟨100, 2, 512, 4, 16, none⟩ [] (by decide)
    (fun o s h => by simp [mapLookup] at h)

/-!
XWS container model: `parse_xws` (extract_kwb_multi.py) and the layout
pass of `repack` (repack_kwb_multi.py).
-/

/-- Models the slot-walking loop of `parse_xws`: a zero slot offset
advances one slot; a slot resolving to a KWB2-tagged chunk consumes the
pair (the next slot is taken as the body offset, untagged-checked) and
the bank is parsed; any other tag advances one slot. -/
def xwsScan (f : List Nat) (t1 chunks i : Nat) : List ChunkInfo :=
  if _h : i < chunks then
    if read_u32le f (t1 + i * 4) = 0 then xwsScan f t1 chunks (i + 1)
    else if read_u32be f (read_u32le f (t1 + i * 4)) = 0x4B574232 then
      parse_kwb2 f (read_u32le f (t1 + i * 4)) (read_u32le f (t1 + (i + 1) * 4)) ::
        xwsScan f t1 chunks (i + 2)
    else xwsScan f t1 chunks (i + 1)
  else []
termination_by chunks - i
decreasing_by all_goals omega

/-- Models `parse_xws`: validate the magic tag (`XWSF` or `tdpa`), read
the slot count at 0x18 and the slot-table address at 0x20, and walk the
slots; an invalid magic aborts with no manifest (`none`). -/
def parse_xws (f : List Nat) : Option (List ChunkInfo) :=
  if f.take 4 = [88, 87, 83, 70] ∨ f.take 4 = [116, 100, 112, 97] then
    some (xwsScan f (read_u32le f 32) (read_u32le f 24) 0)
  else none

/-- C6: at any live slot index, the scanner consumes exactly two slots
when the slot resolves to a KWB2 big-endian tag (taking the following
slot as the body offset with no tag check), and exactly one slot when the
stored offset is zero or the tag is anything else. -/
theorem C6_slot_step (f : List Nat) (t1 chunks i : Nat) (hi : i < chunks) :
    (read_u32le f (t1 + i * 4) = 0 →
      xwsScan f t1 chunks i = xwsScan f t1 chunks (i + 1)) ∧
    (read_u32le f (t1 + i * 4) ≠ 0 →
      read_u32be f (read_u32le f (t1 + i * 4)) = 0x4B574232 →
      xwsScan f t1 chunks i =
        parse_kwb2 f (read_u32le f (t1 + i * 4)) (read_u32le f (t1 + (i + 1) * 4)) ::
          xwsScan f t1 chunks (i + 2)) ∧
    (read_u32le f (t1 + i * 4) ≠ 0 →
      read_u32be f (read_u32le f (t1 + i * 4)) ≠ 0x4B574232 →
      xwsScan f t1 chunks i = xwsScan f t1 chunks (i + 1)) := by
  refine ⟨?_, ?_, ?_⟩
  · intro h0
    conv_lhs => rw [xwsScan]
    rw [dif_pos hi, if_pos h0]
  · intro h0 hk
    conv_lhs => rw [xwsScan]
    rw [dif_pos hi, if_neg h0, if_pos hk]
  · intro h0 hk
    conv_lhs => rw [xwsScan]
    rw [dif_pos hi, if_neg h0, if_neg hk]

/-- Witness for C6: a concrete container whose first slot resolves to a
KWB2 tag makes the scanner consume the slot pair. -/
theorem C6_slot_step_witness :
    xwsScan [8, 0, 0, 0, 16, 0, 0, 0, 75, 87, 66, 50, 0, 0, 0, 0] 0 2 0 =
      parse_kwb2 [8, 0, 0, 0, 16, 0, 0, 0, 75, 87, 66, 50, 0, 0, 0, 0] 8 16 ::
        xwsScan [8, 0, 0, 0, 16, 0, 0, 0, 75, 87, 66, 50, 0, 0, 0, 0] 0 2 2 :=
  ((C6_slot_step [8, 0, 0, 0, 16, 0, 0, 0, 75, 87, 66, 50, 0, 0, 0, 0] 0 2 0
    (by decide)).2.1 (by decide) (by decide))

theorem xwsScan_step_kwb2 (f : List Nat) (t1 chunks i : Nat) (hi : i < chunks)
    (h0 : read_u32le f (t1 + i * 4) ≠ 0)
    (hk : read_u32be f (read_u32le f (t1 + i * 4)) = 0x4B574232) :
    xwsScan f t1 chunks i =
      parse_kwb2 f (read_u32le f (t1 + i * 4)) (read_u32le f (t1 + (i + 1) * 4)) ::
        xwsScan f t1 chunks (i + 2) := by
  conv_lhs => rw [xwsScan]
  rw [dif_pos hi, if_neg h0, if_pos hk]

/-- Fatal-parameter condition of `write_wav_msadpcm` in the source: the
Python function raises, aborting extraction uncaught, exactly when the
channel count is zero (ZeroDivisionError computing samples per block),
the derived samples-per-block value is zero (ZeroDivisionError computing
the byte rate), a `struct.pack` argument is out of range (channels,
sample rate or block align beyond their field widths, a negative or
too-large samples-per-block or byte rate), or the data length overflows
the 32-bit size fields. -/
def write_wav_fatal (dataLen channels sample_rate block_align : Nat) : Prop :=
  channels = 0 ∨
  samples_per_block channels block_align = 0 ∨
  samples_per_block channels block_align < 0 ∨
  65536 ≤ samples_per_block channels block_align ∨
  wav_byte_rate channels sample_rate block_align < 0 ∨
  4294967296 ≤ wav_byte_rate channels sample_rate block_align ∨
  65536 ≤ channels ∨
  4294967296 ≤ sample_rate ∨
  65536 ≤ block_align ∨
  4294967296 ≤ dataLen ∨
  4294967296 ≤ 70 + dataLen

/-- Concrete container with an accepted magic tag whose single KWB2 bank
holds a codec-0x10 subsound with channels byte 0: extraction dispatches
the bank and then dies in `write_wav_msadpcm` (ZeroDivisionError), so
the bad-magic check is not the only fatal condition in extraction. -/
def xwsCex7 : List Nat :=
  [88, 87, 83, 70] ++ List.replicate 20 0 ++ u32le 2 ++ u32le 0 ++ u32le 40 ++ u32le 0 ++
  u32le 48 ++ u32le 192 ++
  [75, 87, 66, 50, 0, 0, 1, 0] ++ List.replicate 16 0 ++ [28, 0, 0, 0] ++
  [0, 128, 0, 1] ++ List.replicate 40 0 ++
  [34, 86, 16, 0, 0, 2] ++ List.replicate 10 0 ++ [0, 0, 0, 0, 4, 0, 0, 0] ++
  List.replicate 48 0 ++ [9, 8, 7, 6]

set_option maxRecDepth 100000 in
/-- C7 (amended): a rejected magic tag makes extraction emit a
diagnostic and abort with no manifest at all — but the bad-magic check
is not the only fatal condition in extraction: there is a container with
an accepted magic whose slot scan dispatches a bank holding a reached
codec-0x10 subsound whose synthesis parameters are fatal (channel count
zero), so extraction aborts there as well. -/
theorem C7_bad_magic_aborts :
    (∀ f : List Nat,
      ¬(f.take 4 = [88, 87, 83, 70] ∨ f.take 4 = [116, 100, 112, 97]) →
      parse_xws f = none) ∧
    (∃ (f : List Nat) (ho bo : Nat),
      f.take 4 = [88, 87, 83, 70] ∧
      xwsScan f (read_u32le f 32) (read_u32le f 24) 0 =
        parse_kwb2 f ho bo :: xwsScan f (read_u32le f 32) (read_u32le f 24) 2 ∧
      ∃ e ∈ (parse_kwb2 f ho bo).sound_entries, ∃ s ∈ e.subsounds,
        write_wav_fatal (rawDataOf s).length s.channels s.sample_rate s.block_size) := by
  constructor
  · intro f hf
    unfold parse_xws
    rw [if_neg hf]
  · refine ⟨xwsCex7, 48, 192, by decide, ?_, ?_⟩
    · have h32 : read_u32le xwsCex7 32 = 40 := by decide
      have h24 : read_u32le xwsCex7 24 = 2 := by decide
      have h40 : read_u32le xwsCex7 (40 + 0 * 4) = 48 := by decide
      have h44 : read_u32le xwsCex7 (40 + (0 + 1) * 4) = 192 := by decide
      have hstep := xwsScan_step_kwb2 xwsCex7 40 2 0 (by omega)
        (by rw [h40]; decide) (by rw [h40]; decide)
      rw [h40, h44] at hstep
      rw [h32, h24]
      exact hstep
    · refine ⟨⟨0, some 32768, [⟨22050, 0, 512, 4, 16,
        some (write_wav_msadpcm [9, 8, 7, 6] 0 22050 512)⟩]⟩, by decide,
        ⟨22050, 0, 512, 4, 16, some (write_wav_msadpcm [9, 8, 7, 6] 0 22050 512)⟩,
        by decide, Or.inl rfl⟩

set_option maxRecDepth 100000 in
/-- Counterexample to C7 as frozen: `xwsCex7` carries the accepted XWSF
magic, its slot scan dispatches the bank at offset 48 (body 192), and
the bank's one extracted subsound has channels byte 0 with sample rate
22050 and block size 512 — parameters on which the source's
`write_wav_msadpcm` raises ZeroDivisionError, aborting extraction — so
the bad-magic check is not the only fatal condition in extraction. -/
theorem C7_bad_magic_aborts_counterexample :
    xwsCex7.take 4 = [88, 87, 83, 70] ∧
    read_u32le xwsCex7 24 = 2 ∧
    read_u32le xwsCex7 32 = 40 ∧
    xwsScan xwsCex7 40 2 0 = parse_kwb2 xwsCex7 48 192 :: xwsScan xwsCex7 40 2 2 ∧
    (parse_kwb2 xwsCex7 48 192).sound_entries.map
      (fun e => e.subsounds.map (fun s => (s.channels, s.sample_rate, s.block_size))) =
      [[(0, 22050, 512)]] ∧
    write_wav_fatal 4 0 22050 512 := by
  refine ⟨by decide, by decide, by decide, ?_, by decide, Or.inl rfl⟩
  have h40 : read_u32le xwsCex7 (40 + 0 * 4) = 48 := by decide
  have h44 : read_u32le xwsCex7 (40 + (0 + 1) * 4) = 192 := by decide
  have hstep := xwsScan_step_kwb2 xwsCex7 40 2 0 (by omega)
    (by rw [h40]; decide) (by rw [h40]; decide)
  rw [h40, h44] at hstep
  exact hstep

/-- Witness for C7 (amended): a container whose magic is rejected
produces no manifest. -/
theorem C7_bad_magic_aborts_witness : parse_xws [1, 2, 3] = none :=
  C7_bad_magic_aborts.1 [1, 2, 3] (by decide)

/-- Models `align_file` of repack_kwb_multi.py at the position level: the
next write position after zero-padding to the alignment boundary. -/
def alignPos (pos align : Nat) : Nat :=
  if pos % align = 0 then pos else pos + (align - pos % align)

/-- Models the bank-writing loop of `repack`: at each aligned position,
record the header-chunk offset, write the header blob, align, record the
body-chunk offset, write the body blob, and align again before the next
bank (the alignment after the last body is the source's trailing
alignment pass).  Returns (bytes written from `pos`, recorded offsets). -/
def goChunks : Nat → List (List Nat × List Nat) → List Nat × List Nat
  | _, [] => ([], [])
  | pos, (hb, bb) :: rest =>
    let bo := alignPos (pos + hb.length) 2048
    let np := alignPos (bo + bb.length) 2048
    let r := goChunks np rest
    (hb ++ List.replicate (bo - (pos + hb.length)) 0 ++ bb ++
       List.replicate (np - (bo + bb.length)) 0 ++ r.1,
     pos :: bo :: r.2)

/-- Models `repack`: the 0x28-byte container header, the slot table (the
deferred size and table patches are emitted as their final values), zero
padding to the first 0x800 boundary, then the bank chunks.  Returns the
container bytes and the recorded slot-table offsets. -/
def repack (layout : List ChunkInfo) : List Nat × List Nat :=
  let blobs := layout.map build_kwb_header_and_body
  let n := layout.length
  let start := alignPos (40 + 8 * n) 2048
  let r := goChunks start blobs
  ([88, 87, 83, 70] ++ [0, 0, 0, 0] ++ [0, 0] ++ [1, 1] ++ u32le 32 ++
     u32le (start + r.1.length) ++ u32le (2 * n) ++ u32le (2 * n) ++ u32le 0 ++
     u32le 40 ++ u32le 0 ++ (r.2.map u32le).flatten ++
     List.replicate (start - (40 + 8 * n)) 0 ++ r.1,
   r.2)

theorem alignPos_mod (p : Nat) : alignPos p 2048 % 2048 = 0 := by
  unfold alignPos
  split <;> omega

theorem goChunks_aligned : ∀ (bl : List (List Nat × List Nat)) (pos : Nat),
    pos % 2048 = 0 → ∀ off ∈ (goChunks pos bl).2, off % 2048 = 0 := by
  intro bl
  induction bl with
  | nil => intro pos _ off hoff; simp [goChunks] at hoff
  | cons hb rest ih =>
    intro pos hpos off hoff
    obtain ⟨h1, h2⟩ := hb
    simp only [goChunks, List.mem_cons] at hoff
    rcases hoff with h | h | h
    · omega
    · rw [h]; exact alignPos_mod _
    · exact ih _ (alignPos_mod _) off h

/-- C9: in every rebuilt container, the start offset recorded in the slot
table for every bank header chunk and every bank body chunk is a multiple
of 0x800; positions are reached by zero-padding to the boundary, with one
trailing alignment pass after the final bank. -/
theorem C9_chunk_alignment (layout : List ChunkInfo) :
    ∀ off ∈ (repack layout).2, off % 2048 = 0 := by
  intro off hoff
  exact goChunks_aligned (layout.map build_kwb_header_and_body)
    (alignPos (40 + 8 * layout.length) 2048) (alignPos_mod _) off hoff

/-- Witness for C9: the header chunk of a one-bank container lands at
offset 0x800. -/
theorem C9_chunk_alignment_witness : (2048 : Nat) % 2048 = 0 :=
  C9_chunk_alignment [⟨[]⟩] 2048 (by decide)

/-!
Round trip of one bank: parsing the rebuilt header and body blobs
recovers the manifest's sound-entry count and, per subsound, the format
fields and the byte-identical audio payload.
-/

/-- Correspondence of one re-parsed subsound with a manifest subsound:
equal format fields, equal codec, and equal raw audio payload. -/
def subMatch (s' s : SubsoundInfo) : Prop :=
  s'.sample_rate = s.sample_rate ∧ s'.channels = s.channels ∧
  s'.block_size = s.block_size ∧ s'.codec = s.codec ∧ rawDataOf s' = rawDataOf s

/-- Correspondence of one re-parsed sound entry with a manifest entry:
the subsound lists correspond pointwise. -/
def entryMatch (e' e : SoundEntry) : Prop :=
  List.Forall₂ subMatch e'.subsounds e.subsounds

/-- Correspondence of a re-parsed bank with a manifest bank: same
sound-entry count and pointwise corresponding entries. -/
def manifestMatch (M' M : ChunkInfo) : Prop :=
  M'.sound_entries.length = M.sound_entries.length ∧
  List.Forall₂ entryMatch M'.sound_entries M.sound_entries

/-- Well-formedness of one manifest subsound: the recognized codec and
fields within their packed widths, with a re-parseable stream. -/
def SubWF (s : SubsoundInfo) : Prop :=
  s.codec = 16 ∧ s.sample_rate < 65536 ∧ s.channels < 256 ∧ s.block_size < 65536 ∧
  (rawDataOf s).length < 4294967296

/-- Well-formedness of one manifest sound entry: a fixed-layout version
value and fewer than 256 well-formed subsounds. -/
def EntryWF (e : SoundEntry) : Prop :=
  e.version.getD 32768 < 49152 ∧ e.subsounds.length < 256 ∧ ∀ s ∈ e.subsounds, SubWF s

/-- Well-formedness of a manifest bank. -/
def ManifestWF (M : ChunkInfo) : Prop :=
  M.sound_entries.length < 65536 ∧ ∀ e ∈ M.sound_entries, EntryWF e

/-- States that `bytes` is the concatenation of the fixed-size subsound
records for `subs`, each carrying a (offset, length) pair that names a
region of the body blob `B` holding exactly that subsound's raw data. -/
def RecsMatch (B : List Nat) : List SubsoundInfo → List Nat → Prop
  | [], bytes => bytes = []
  | sub :: rest, bytes => ∃ off tail,
      bytes = mkSubRecord sub off (rawDataOf sub).length ++ tail ∧
      off + (rawDataOf sub).length ≤ B.length ∧
      (B.drop off).take (rawDataOf sub).length = rawDataOf sub ∧
      RecsMatch B rest tail

theorem RecsMatch_mono (B ext : List Nat) : ∀ (subs : List SubsoundInfo) (bytes : List Nat),
    RecsMatch B subs bytes → RecsMatch (B ++ ext) subs bytes := by
  intro subs
  induction subs with
  | nil => intro bytes h; exact h
  | cons sub rest ih =>
    intro bytes h
    obtain ⟨off, tail, h1, h2, h3, h4⟩ := h
    exact ⟨off, tail, h1, by simp; omega,
      by rw [slice_stable B ext off (rawDataOf sub).length h2]; exact h3, ih tail h4⟩

theorem buildSubs_cons_eq (st : DedupState) (sub : SubsoundInfo) (rest : List SubsoundInfo) :
    buildSubs st (sub :: rest) =
      (mkSubRecord sub (dedupInsert st (rawDataOf sub)).1.1
          (dedupInsert st (rawDataOf sub)).1.2 ++
        (buildSubs (dedupInsert st (rawDataOf sub)).2 rest).1,
       (buildSubs (dedupInsert st (rawDataOf sub)).2 rest).2) := rfl

theorem buildSubs_spec : ∀ (subs : List SubsoundInfo) (st : DedupState), WFd st →
    WFd (buildSubs st subs).2 ∧
    (∃ ext, (buildSubs st subs).2.body = st.body ++ ext) ∧
    RecsMatch (buildSubs st subs).2.body subs (buildSubs st subs).1 := by
  intro subs
  induction subs with
  | nil =>
    intro st h
    exact ⟨h, ⟨[], by simp [buildSubs]⟩, rfl⟩
  | cons sub rest ih =>
    intro st h
    have hwf1 := dedupInsert_wf st (rawDataOf sub) h
    have hsz := dedupInsert_size st (rawDataOf sub) h
    have hlk := dedupInsert_lookup st (rawDataOf sub)
    obtain ⟨hsz', hle, hslice⟩ :=
      hwf1 (rawDataOf sub) (dedupInsert st (rawDataOf sub)).1.1
        (dedupInsert st (rawDataOf sub)).1.2 (by rw [hlk])
    rw [hsz] at hle hslice
    obtain ⟨hwfF, ⟨ext2, hext2⟩, hrm⟩ := ih (dedupInsert st (rawDataOf sub)).2 hwf1
    obtain ⟨ext1, hext1⟩ := dedupInsert_body st (rawDataOf sub)
    rw [buildSubs_cons_eq]
    refine ⟨hwfF, ⟨ext1 ++ ext2, by rw [hext2, hext1, List.append_assoc]⟩, ?_⟩
    refine ⟨(dedupInsert st (rawDataOf sub)).1.1,
      (buildSubs (dedupInsert st (rawDataOf sub)).2 rest).1, by rw [hsz], ?_, ?_, hrm⟩
    · rw [hext2]
      simp only [List.length_append]
      omega
    · rw [hext2, slice_stable _ ext2 _ _ (by omega)]
      exact hslice

theorem read_u8_at (l r : List Nat) : read_u8 (l ++ r) l.length = read_u8 r 0 := by
  have := read_u8_shift l r 0
  rwa [Nat.add_zero] at this

theorem read_u16le_at (l r : List Nat) : read_u16le (l ++ r) l.length = read_u16le r 0 := by
  have := read_u16le_shift l r 0
  rwa [Nat.add_zero] at this

theorem drop_shift : ∀ (a b : List Nat) (k : Nat), (a ++ b).drop (a.length + k) = b.drop k
  | [], b, k => by simp
  | x :: a, b, k => by
    rw [show (x :: a).length + k = (a.length + k) + 1 by simp; omega]
    show (a ++ b).drop (a.length + k) = b.drop k
    exact drop_shift a b k

theorem parseSub_succ (f : List Nat) (bo base ssize j : Nat) :
    parseSub f bo base ssize (j + 1) = parseSub f bo (base + ssize) ssize j := by
  unfold parseSub
  rw [show base + (j + 1) * ssize = base + ssize + j * ssize by ring]

theorem parseSub_head (H B G R : List Nat) (sub : SubsoundInfo) (o : Nat)
    (hsub : SubWF sub)
    (hoB : o + (rawDataOf sub).length ≤ B.length)
    (hslice : (B.drop o).take (rawDataOf sub).length = rawDataOf sub)
    (hB : B.length < 4294967296)
    (hH : H ++ B = G ++ (mkSubRecord sub o (rawDataOf sub).length ++ R)) :
    parseSub (H ++ B) H.length G.length 72 0 =
      some ⟨sub.sample_rate, sub.channels, sub.block_size, (rawDataOf sub).length, 16,
        some (write_wav_msadpcm (rawDataOf sub) sub.channels sub.sample_rate
          sub.block_size)⟩ ∧
    subMatch
      ⟨sub.sample_rate, sub.channels, sub.block_size, (rawDataOf sub).length, 16,
        some (write_wav_msadpcm (rawDataOf sub) sub.channels sub.sample_rate sub.block_size)⟩
      sub := by
  obtain ⟨hcodec, hsr, hch, hbs, hrawlen⟩ := hsub
  have hc : read_u8 (H ++ B) (G.length + 2) = 16 := by
    rw [hH, read_u8_shift, mkSub_read_codec, hcodec]
  have hsr' : read_u16le (H ++ B) G.length = sub.sample_rate := by
    rw [hH, read_u16le_at]
    rw [show read_u16le (mkSubRecord sub o (rawDataOf sub).length ++ R) 0 =
      sub.sample_rate % 65536 from mkSub_read_sr sub o (rawDataOf sub).length R]
    exact Nat.mod_eq_of_lt hsr
  have hch' : read_u8 (H ++ B) (G.length + 3) = sub.channels := by
    rw [hH, read_u8_shift, mkSub_read_ch]
    exact Nat.mod_eq_of_lt hch
  have hbs' : read_u16le (H ++ B) (G.length + 4) = sub.block_size := by
    rw [hH, read_u16le_shift, mkSub_read_bs]
    exact Nat.mod_eq_of_lt hbs
  have hoff' : read_u32le (H ++ B) (G.length + 16) = o := by
    rw [hH, read_u32le_shift, mkSub_read_off]
    exact Nat.mod_eq_of_lt (by omega)
  have hsz' : read_u32le (H ++ B) (G.length + 20) = (rawDataOf sub).length := by
    rw [hH, read_u32le_shift, mkSub_read_sz]
    exact Nat.mod_eq_of_lt (by omega)
  have haudio : ((H ++ B).drop (H.length + o)).take (rawDataOf sub).length = rawDataOf sub := by
    rw [drop_shift]
    exact hslice
  constructor
  · unfold parseSub
    simp only [Nat.zero_mul, Nat.add_zero]
    rw [hc, if_pos rfl, hsr', hch', hbs', hoff', hsz', haudio]
  · refine ⟨rfl, rfl, rfl, hcodec.symm, ?_⟩
    show read_wav_data (write_wav_msadpcm (rawDataOf sub) sub.channels sub.sample_rate
      sub.block_size) = rawDataOf sub
    exact wav_roundtrip (rawDataOf sub) sub.channels sub.sample_rate sub.block_size hrawlen

theorem parse_recs (B H : List Nat) (hB : B.length < 4294967296) :
    ∀ (subs : List SubsoundInfo) (recbytes G restH : List Nat),
      H = G ++ recbytes ++ restH →
      RecsMatch B subs recbytes →
      (∀ s ∈ subs, SubWF s) →
      List.Forall₂ subMatch
        ((List.range subs.length).filterMap (parseSub (H ++ B) H.length G.length 72))
        subs := by
  intro subs
  induction subs with
  | nil =>
    intro recbytes G restH hH hrm hwf
    simp only [List.length_nil, List.range_zero, List.filterMap_nil]
    exact List.Forall₂.nil
  | cons sub rest ih =>
    intro recbytes G restH hH hrm hwf
    obtain ⟨o, tail, hbytes, hoB, hslice, hrm'⟩ := hrm
    have hH' : H ++ B =
        G ++ (mkSubRecord sub o (rawDataOf sub).length ++ (tail ++ (restH ++ B))) := by
      rw [hH, hbytes]
      simp [List.append_assoc]
    obtain ⟨hps, hsm⟩ :=
      parseSub_head H B G (tail ++ (restH ++ B)) sub o (hwf sub (by simp)) hoB hslice hB hH'
    rw [show (sub :: rest).length = rest.length + 1 from rfl, List.range_succ_eq_map,
      List.filterMap_cons, hps, List.filterMap_map]
    have hcomp : (parseSub (H ++ B) H.length G.length 72) ∘ Nat.succ =
        parseSub (H ++ B) H.length
          (G ++ mkSubRecord sub o (rawDataOf sub).length).length 72 := by
      funext j
      show parseSub (H ++ B) H.length G.length 72 (j + 1) = _
      rw [parseSub_succ]
      congr 1
      simp [mkSubRecord_length]
    rw [hcomp]
    refine List.Forall₂.cons hsm ?_
    exact ih tail (G ++ mkSubRecord sub o (rawDataOf sub).length) restH
      (by rw [hH, hbytes]; simp [List.append_assoc]) hrm'
      (fun s hs => hwf s (by simp [hs]))

/-- States that `buf` is the rebuilt sound-entry buffer for `e`: the
0x2c-byte entry header followed by record bytes matching `e.subsounds`
against the body blob `B`. -/
def EntryBufOf (B : List Nat) (e : SoundEntry) (buf : List Nat) : Prop :=
  ∃ recbytes, buf = mkEntryHead e ++ recbytes ∧ RecsMatch B e.subsounds recbytes

theorem buildEntriesList_cons_eq (st : DedupState) (e : SoundEntry) (rest : List SoundEntry) :
    buildEntriesList st (e :: rest) =
      ((buildEntry st e).1 :: (buildEntriesList (buildEntry st e).2 rest).1,
       (buildEntriesList (buildEntry st e).2 rest).2) := rfl

theorem buildEntriesList_spec : ∀ (entries : List SoundEntry) (st : DedupState), WFd st →
    WFd (buildEntriesList st entries).2 ∧
    (∃ ext, (buildEntriesList st entries).2.body = st.body ++ ext) ∧
    List.Forall₂ (EntryBufOf (buildEntriesList st entries).2.body) entries
      (buildEntriesList st entries).1 := by
  intro entries
  induction entries with
  | nil =>
    intro st h
    exact ⟨h, ⟨[], by simp [buildEntriesList]⟩, List.Forall₂.nil⟩
  | cons e rest ih =>
    intro st h
    obtain ⟨hwf1, ⟨ext1, hext1⟩, hrm⟩ := buildSubs_spec e.subsounds st h
    obtain ⟨hwfF, ⟨ext2, hext2⟩, hF⟩ := ih (buildSubs st e.subsounds).2 hwf1
    rw [buildEntriesList_cons_eq]
    have hbody : (buildEntriesList (buildEntry st e).2 rest).2.body =
        (buildSubs st e.subsounds).2.body ++ ext2 := hext2
    refine ⟨hwfF, ⟨ext1 ++ ext2, by rw [hbody, hext1, List.append_assoc]⟩, ?_⟩
    refine List.Forall₂.cons ?_ hF
    refine ⟨(buildSubs st e.subsounds).1, rfl, ?_⟩
    rw [hbody]
    exact RecsMatch_mono _ ext2 e.subsounds _ hrm

theorem buildSubs_length : ∀ (subs : List SubsoundInfo) (st : DedupState),
    (buildSubs st subs).1.length = 72 * subs.length := by
  intro subs
  induction subs with
  | nil => intro st; rfl
  | cons sub rest ih =>
    intro st
    rw [buildSubs_cons_eq]
    simp only [List.length_append, List.length_cons, mkSubRecord_length, ih]
    ring

theorem buildEntry_length (st : DedupState) (e : SoundEntry) :
    (buildEntry st e).1.length = 44 + 72 * e.subsounds.length := by
  show (mkEntryHead e ++ (buildSubs st e.subsounds).1).length = _
  simp [mkEntryHead_length, buildSubs_length]

theorem buildEntriesList_length : ∀ (entries : List SoundEntry) (st : DedupState),
    (buildEntriesList st entries).1.length = entries.length := by
  intro entries
  induction entries with
  | nil => intro st; rfl
  | cons e rest ih =>
    intro st
    rw [buildEntriesList_cons_eq]
    simp [ih]

/-- Total byte length of a list of buffers. -/
def sumLens (bs : List (List Nat)) : Nat := (bs.map List.length).sum

theorem sumLens_append (a b : List (List Nat)) : sumLens (a ++ b) = sumLens a + sumLens b := by
  simp [sumLens]

theorem sumLens_take_le (bs : List (List Nat)) (i : Nat) : sumLens (bs.take i) ≤ sumLens bs := by
  conv_rhs => rw [← List.take_append_drop i bs]
  rw [sumLens_append]
  omega

theorem buildEntriesList_sumLens : ∀ (entries : List SoundEntry) (st : DedupState),
    (∀ e ∈ entries, e.subsounds.length < 256) →
    sumLens (buildEntriesList st entries).1 ≤ 18404 * entries.length := by
  intro entries
  induction entries with
  | nil => intro st _; simp [buildEntriesList, sumLens]
  | cons e rest ih =>
    intro st hcnt
    rw [buildEntriesList_cons_eq]
    have h1 : (buildEntry st e).1.length ≤ 18404 := by
      rw [buildEntry_length]
      have := hcnt e (by simp)
      omega
    have h2 := ih (buildEntry st e).2 (fun e' he' => hcnt e' (by simp [he']))
    show sumLens ((buildEntry st e).1 :: (buildEntriesList (buildEntry st e).2 rest).1) ≤ _
    simp only [sumLens, List.map_cons, List.sum_cons, List.length_cons]
    have : sumLens (buildEntriesList (buildEntry st e).2 rest).1 ≤ 18404 * rest.length := h2
    simp only [sumLens] at this
    calc (buildEntry st e).1.length + ((buildEntriesList (buildEntry st e).2 rest).1.map
        List.length).sum ≤ 18404 + 18404 * rest.length := by omega
      _ = 18404 * (rest.length + 1) := by ring

theorem offsetsFrom_length : ∀ (bs : List (List Nat)) (start : Nat),
    (offsetsFrom start bs).length = bs.length := by
  intro bs
  induction bs with
  | nil => intro start; rfl
  | cons b rest ih => intro start; simp [offsetsFrom, ih]

theorem offsetsFrom_get : ∀ (bs : List (List Nat)) (start i : Nat), i < bs.length →
    (offsetsFrom start bs).get? i = some (start + sumLens (bs.take i)) := by
  intro bs
  induction bs with
  | nil => intro start i hi; simp at hi
  | cons b rest ih =>
    intro start i hi
    cases i with
    | zero => simp [offsetsFrom, sumLens]
    | succ j =>
      show (offsetsFrom (start + b.length) rest).get? j = _
      rw [ih (start + b.length) j (by simpa using hi)]
      simp only [List.take_succ_cons, sumLens, List.map_cons, List.sum_cons]
      rw [show start + b.length + (rest.take j |>.map List.length).sum =
        start + (b.length + (rest.take j |>.map List.length).sum) by omega]

theorem flatten_u32le_length (os : List Nat) : ((os.map u32le).flatten).length = 4 * os.length := by
  induction os with
  | nil => rfl
  | cons o rest ih => simp [u32le, ih]; ring

theorem table_read : ∀ (os : List Nat) (X : List Nat) (i : Nat), i < os.length →
    read_u32le ((os.map u32le).flatten ++ X) (4 * i) =
      (os.get? i).getD 0 % 4294967296 := by
  intro os
  induction os with
  | nil => intro X i hi; simp at hi
  | cons o rest ih =>
    intro X i hi
    cases i with
    | zero =>
      have h : ((o :: rest).map u32le).flatten ++ X =
          u32le o ++ ((rest.map u32le).flatten ++ X) := by
        simp [List.append_assoc]
      rw [Nat.mul_zero, h, read_u32le_u32le]
      rfl
    | succ j =>
      have h : ((o :: rest).map u32le).flatten ++ X =
          u32le o ++ ((rest.map u32le).flatten ++ X) := by
        simp [List.append_assoc]
      have h4 : (u32le o).length = 4 := by simp [u32le]
      rw [h, show 4 * (j + 1) = (u32le o).length + 4 * j by rw [h4]; ring,
        read_u32le_shift, ih X j (by simpa using hi)]
      rfl

theorem kwbPrologue_length (n : Nat) : (kwbPrologue n).length = 24 := by
  simp [kwbPrologue, u16le]

theorem kwb_table_read (n : Nat) (offs : List Nat) (X : List Nat) (i : Nat)
    (hi : i < offs.length) :
    read_u32le (kwbPrologue n ++ ((offs.map u32le).flatten ++ X)) (24 + i * 4) =
      (offs.get? i).getD 0 % 4294967296 := by
  rw [show 24 + i * 4 = (kwbPrologue n).length + 4 * i by rw [kwbPrologue_length]; ring,
    read_u32le_shift]
  exact table_read offs X i hi

theorem kwb_count_read (n : Nat) (X : List Nat) :
    read_u16le (kwbPrologue n ++ X) 6 = n % 65536 := by
  have h : kwbPrologue n ++ X =
      [75, 87, 66, 50, 0, 0] ++ (u16le n ++ (List.replicate 16 0 ++ X)) := by
    simp [kwbPrologue, List.append_assoc]
  rw [h, show (6 : Nat) = ([75, 87, 66, 50, 0, 0] : List Nat).length + 0 from rfl,
    read_u16le_shift]
  exact read_u16le_u16le n _

theorem forall2_get? {α β : Type} {R : α → β → Prop} {l₁ : List α} {l₂ : List β}
    (h : List.Forall₂ R l₁ l₂) :
    ∀ i a, l₁.get? i = some a → ∃ b, l₂.get? i = some b ∧ R a b := by
  induction h with
  | nil => intro i a ha; simp at ha
  | cons hr hrest ih =>
    intro i a ha
    cases i with
    | zero =>
      cases ha
      exact ⟨_, rfl, hr⟩
    | succ j => exact ih j a ha

theorem forall2_of_range_map {α β : Type} (R : α → β → Prop) :
    ∀ (l : List β) (g : Nat → α), (∀ i b, l.get? i = some b → R (g i) b) →
      List.Forall₂ R ((List.range l.length).map g) l := by
  intro l
  induction l with
  | nil => intro g _; exact List.Forall₂.nil
  | cons b t ih =>
    intro g h
    rw [show (b :: t).length = t.length + 1 from rfl, List.range_succ_eq_map,
      List.map_cons, List.map_map]
    exact List.Forall₂.cons (h 0 b rfl) (ih (g ∘ Nat.succ) (fun i b' hb' => h (i + 1) b' hb'))

theorem forall2_nil_right {α β : Type} {R : α → β → Prop} {l : List α}
    (h : List.Forall₂ R l []) : l = [] := by
  cases h
  rfl

theorem parseSound_entry (H B G buf restH : List Nat) (e : SoundEntry) (i : Nat)
    (hH : H = G ++ buf ++ restH)
    (hG24 : 24 ≤ G.length)
    (hbuf : EntryBufOf B e buf)
    (hewf : EntryWF e)
    (hB : B.length < 4294967296)
    (hrel : read_u32le (H ++ B) (24 + i * 4) = G.length) :
    entryMatch (parseSound (H ++ B) 0 H.length i) e := by
  obtain ⟨hver, hcnt, hsubwf⟩ := hewf
  obtain ⟨recbytes, hbufeq, hrm⟩ := hbuf
  have hHB : H ++ B = G ++ (mkEntryHead e ++ (recbytes ++ (restH ++ B))) := by
    rw [hH, hbufeq]
    simp [List.append_assoc]
  have hv : read_u16le (H ++ B) G.length = e.version.getD 32768 := by
    rw [hHB, read_u16le_at, mkEntryHead_read_version]
    exact Nat.mod_eq_of_lt (by omega)
  have hc : read_u8 (H ++ B) (G.length + 3) = e.subsounds.length := by
    rw [hHB, read_u8_shift, mkEntryHead_read_count]
    exact Nat.mod_eq_of_lt hcnt
  have hmatch := parse_recs B H hB e.subsounds recbytes (G ++ mkEntryHead e) restH
    (by rw [hH, hbufeq]; simp [List.append_assoc]) hrm hsubwf
  have hbase : (G ++ mkEntryHead e).length = G.length + 44 := by
    simp [mkEntryHead_length]
  rw [hbase] at hmatch
  unfold parseSound
  simp only [Nat.zero_add]
  rw [hrel, if_neg (by omega : ¬ G.length = 0), hv, hc, if_pos hver, if_pos hver]
  exact hmatch

/-- Core round-trip lemma: re-parsing the rebuilt header and body blobs
of a well-formed manifest yields a bank matching the manifest. -/
theorem build_parse_roundtrip (M : ChunkInfo) (hwf : ManifestWF M)
    (hbody : (build_kwb_header_and_body M).2.length < 4294967296) :
    manifestMatch
      (parse_kwb2 ((build_kwb_header_and_body M).1 ++ (build_kwb_header_and_body M).2) 0
        (build_kwb_header_and_body M).1.length) M := by
  obtain ⟨hn, hewf⟩ := hwf
  set n := M.sound_entries.length with hn_def
  set eb := buildEntriesList ⟨[], []⟩ M.sound_entries with heb
  set offs := offsetsFrom (24 + n * 4) eb.1 with hoffs
  set H := kwbPrologue n ++ (offs.map u32le).flatten ++ eb.1.flatten with hH
  set B := eb.2.body with hBdef
  have hbuild : build_kwb_header_and_body M = (H, B) := rfl
  rw [hbuild]
  show manifestMatch (parse_kwb2 (H ++ B) 0 H.length) M
  obtain ⟨hwfF, ⟨ext, hext⟩, hF2⟩ := buildEntriesList_spec M.sound_entries ⟨[], []⟩ WFd_empty
  have hB32 : B.length < 4294967296 := hbody
  have hbufslen : eb.1.length = n := buildEntriesList_length _ _
  have hoffslen : offs.length = n := by rw [hoffs, offsetsFrom_length, hbufslen]
  have hsum : sumLens eb.1 ≤ 18404 * n :=
    buildEntriesList_sumLens M.sound_entries ⟨[], []⟩ (fun e he => (hewf e he).2.1)
  have hHsplit : ∀ X : List Nat,
      H ++ X = kwbPrologue n ++ ((offs.map u32le).flatten ++ (eb.1.flatten ++ X)) := by
    intro X
    rw [hH]
    simp [List.append_assoc]
  have hcount : read_u16le (H ++ B) 6 = n := by
    rw [hHsplit B, kwb_count_read]
    exact Nat.mod_eq_of_lt hn
  have hparse : parse_kwb2 (H ++ B) 0 H.length =
      ⟨(List.range n).map (parseSound (H ++ B) 0 H.length)⟩ := by
    unfold parse_kwb2
    simp only [Nat.zero_add]
    rw [hcount]
  rw [hparse]
  constructor
  · simp [hn_def]
  · show List.Forall₂ entryMatch
      ((List.range M.sound_entries.length).map (parseSound (H ++ B) 0 H.length))
      M.sound_entries
    apply forall2_of_range_map entryMatch M.sound_entries
    intro i e hie
    obtain ⟨buf, hbufi, hEBO⟩ := forall2_get? hF2 i e hie
    have hi : i < n := by
      by_contra hcon
      rw [List.get?_eq_none.mpr (by omega)] at hie
      cases hie
    have hibuf : i < eb.1.length := by omega
    have hgetoff : offs.get? i = some (24 + n * 4 + sumLens (eb.1.take i)) := by
      rw [hoffs]
      exact offsetsFrom_get eb.1 (24 + n * 4) i hibuf
    have hoi32 : 24 + n * 4 + sumLens (eb.1.take i) < 4294967296 := by
      have h1 : sumLens (eb.1.take i) ≤ sumLens eb.1 := sumLens_take_le _ _
      omega
    have hrel : read_u32le (H ++ B) (24 + i * 4) =
        24 + n * 4 + sumLens (eb.1.take i) := by
      rw [hHsplit B, kwb_table_read n offs _ i (by omega), hgetoff]
      simp only [Option.getD_some]
      exact Nat.mod_eq_of_lt hoi32
    have hbufv : eb.1[i] = buf := by
      have h' := hbufi
      rw [List.get?_eq_getElem?, List.getElem?_eq_getElem hibuf] at h'
      exact Option.some.inj h'
    have hith : eb.1.drop i = buf :: eb.1.drop (i + 1) := by
      rw [List.drop_eq_getElem_cons hibuf, hbufv]
    have hflat : eb.1.flatten = (eb.1.take i).flatten ++ (buf ++ (eb.1.drop (i + 1)).flatten) := by
      conv_lhs => rw [← List.take_append_drop i eb.1]
      rw [List.flatten_append, hith, List.flatten_cons]
    have htab : ((offs.map u32le).flatten).length = 4 * n := by
      rw [flatten_u32le_length, hoffslen]
    have hGlen : (kwbPrologue n ++ (offs.map u32le).flatten ++ (eb.1.take i).flatten).length =
        24 + n * 4 + sumLens (eb.1.take i) := by
      simp only [List.length_append, kwbPrologue_length, htab, List.length_flatten, sumLens]
      omega
    have hHsplit2 : H = (kwbPrologue n ++ (offs.map u32le).flatten ++ (eb.1.take i).flatten) ++
        buf ++ (eb.1.drop (i + 1)).flatten := by
      rw [hH, hflat]
      simp [List.append_assoc]
    exact parseSound_entry H B _ buf _ e i hHsplit2 (by omega) hEBO
      (hewf e (List.get?_mem hie)) hB32 (by rw [hrel, hGlen])

theorem parseSub_wf (F : List Nat) (bo base ssize j : Nat) (hbytes : ∀ b ∈ F, b < 256)
    (s : SubsoundInfo) (hs : parseSub F bo base ssize j = some s) : SubWF s := by
  unfold parseSub at hs
  dsimp only [] at hs
  split at hs
  next hc =>
    have hs' := Option.some.inj hs
    rw [← hs']
    have haudlen : ((F.drop (bo + read_u32le F (base + j * ssize + 16))).take
        (read_u32le F (base + j * ssize + 20))).length < 4294967296 := by
      calc _ ≤ read_u32le F (base + j * ssize + 20) := List.length_take_le _ _
        _ < 4294967296 := read_u32le_lt F _ hbytes
    refine ⟨hc, read_u16le_lt F _ hbytes, read_u8_lt F _ hbytes,
      read_u16le_lt F _ hbytes, ?_⟩
    show (read_wav_data (write_wav_msadpcm _ _ _ _)).length < 4294967296
    rw [wav_roundtrip _ _ _ _ haudlen]
    exact haudlen
  next => cases hs

/-- Every manifest produced by `parse_kwb2` on an actual byte file is
well-formed, given fixed-layout versions: counts and fields come from
fixed-width reads, kept subsounds carry codec 0x10, and each emitted
audio file re-parses to its stream (so streams stay below 2^32 bytes). -/
theorem parse_kwb2_wf (F : List Nat) (ho bo : Nat) (hbytes : ∀ b ∈ F, b < 256)
    (hver : ∀ e ∈ (parse_kwb2 F ho bo).sound_entries, e.version.getD 32768 < 49152) :
    ManifestWF (parse_kwb2 F ho bo) := by
  constructor
  · show ((List.range (read_u16le F (ho + 6))).map _).length < 65536
    rw [List.length_map, List.length_range]
    exact read_u16le_lt F (ho + 6) hbytes
  · intro e he
    refine ⟨hver e he, ?_⟩
    obtain ⟨i, _, hei⟩ := List.mem_map.mp he
    rw [← hei]
    unfold parseSound
    by_cases h0 : read_u32le F (ho + 24 + i * 4) = 0
    · rw [if_pos h0]
      exact ⟨by simp, by simp⟩
    · rw [if_neg h0]
      constructor
      · calc ((List.range (read_u8 F (ho + read_u32le F (ho + 24 + i * 4) + 3))).filterMap
            _).length ≤
              (List.range (read_u8 F (ho + read_u32le F (ho + 24 + i * 4) + 3))).length :=
              List.length_filterMap_le _ _
          _ = read_u8 F (ho + read_u32le F (ho + 24 + i * 4) + 3) := List.length_range _
          _ < 256 := read_u8_lt F _ hbytes
      · intro s hs
        obtain ⟨j, _, hsj⟩ := List.mem_filterMap.mp hs
        exact parseSub_wf F bo _ _ j hbytes s hsj

/-- C1 (amended): for a bank all of whose subsound records carry codec
0x10, whose sound entries use a fixed-layout version (below 0xc000), and
whose rebuilt body blob stays below 2^32 bytes, rebuilding from the
manifest produced by extraction and re-parsing the rebuilt header and
body blobs yields the same sound-entry count and, for each subsound, the
same sample rate, channel count, block size and codec id, and a
byte-identical audio payload.  Under `allCodec10` the manifest records
exactly the bank's subsound data, so matching the manifest is matching
the original bank; `hbytes` states that the input is a byte file. -/
theorem C1_bank_roundtrip (F : List Nat) (ho bo : Nat)
    (hbytes : ∀ b ∈ F, b < 256)
    (hcodec : allCodec10 F ho)
    (hver : ∀ e ∈ (parse_kwb2 F ho bo).sound_entries, e.version.getD 32768 < 49152)
    (hbody : (build_kwb_header_and_body (parse_kwb2 F ho bo)).2.length < 4294967296) :
    manifestMatch
      (parse_kwb2
        ((build_kwb_header_and_body (parse_kwb2 F ho bo)).1 ++
          (build_kwb_header_and_body (parse_kwb2 F ho bo)).2) 0
        (build_kwb_header_and_body (parse_kwb2 F ho bo)).1.length)
      (parse_kwb2 F ho bo) :=
  build_parse_roundtrip (parse_kwb2 F ho bo) (parse_kwb2_wf F ho bo hbytes hver) hbody

/-- Concrete bank falsifying C1 as frozen: one sound entry with version
0xc000 (table-driven layout, record size 0x18) holding a single
codec-0x10 subsound. -/
def kwbCex : List Nat :=
  [75, 87, 66, 50, 0, 0, 1, 0] ++ List.replicate 16 0 ++ [28, 0, 0, 0] ++
  [0, 192, 0, 1] ++ List.replicate 40 0 ++ [48, 0, 24, 0] ++
  [34, 86, 16, 2, 0, 2] ++ List.replicate 10 0 ++ [0, 0, 0, 0, 4, 0, 0, 0] ++ [9, 8, 7, 6]

set_option maxRecDepth 100000 in
/-- Counterexample to C1 as frozen: `kwbCex` has only codec-0x10
subsounds and extraction records its one subsound, but the rebuilt bank
re-parses with no subsound at all (the rebuild keeps the 0xc000 version
value while emitting the fixed layout, so the re-parse misreads the
record geometry), so the rebuilt bank does not reproduce the subsound's
fields or payload. -/
theorem C1_bank_roundtrip_counterexample :
    allCodec10 kwbCex 0 ∧
    (parse_kwb2 kwbCex 0 100).sound_entries.map (fun e => e.subsounds.length) = [1] ∧
    (parse_kwb2
        ((build_kwb_header_and_body (parse_kwb2 kwbCex 0 100)).1 ++
          (build_kwb_header_and_body (parse_kwb2 kwbCex 0 100)).2) 0
        (build_kwb_header_and_body (parse_kwb2 kwbCex 0 100)).1.length).sound_entries.map
      (fun e => e.subsounds.length) = [0] := by
  refine ⟨by decide, by decide, by decide⟩

/-- Concrete fixed-layout bank (version 0x8000) with one codec-0x10
subsound, used to witness C1. -/
def kwbWit : List Nat :=
  [75, 87, 66, 50, 0, 0, 1, 0] ++ List.replicate 16 0 ++ [28, 0, 0, 0] ++
  [0, 128, 0, 1] ++ List.replicate 40 0 ++
  [34, 86, 16, 2, 0, 2] ++ List.replicate 10 0 ++ [0, 0, 0, 0, 4, 0, 0, 0] ++
  List.replicate 48 0 ++ [9, 8, 7, 6]

set_option maxRecDepth 100000 in
/-- Witness for C1 at the concrete fixed-layout bank `kwbWit`. -/
theorem C1_bank_roundtrip_witness :
    manifestMatch
      (parse_kwb2
        ((build_kwb_header_and_body (parse_kwb2 kwbWit 0 144)).1 ++
          (build_kwb_header_and_body (parse_kwb2 kwbWit 0 144)).2) 0
        (build_kwb_header_and_body (parse_kwb2 kwbWit 0 144)).1.length)
      (parse_kwb2 kwbWit 0 144) :=
  C1_bank_roundtrip kwbWit 0 144 (by decide) (by decide) (by decide) (by decide)

theorem build_slot_lower (M : ChunkInfo) (hwf : ManifestWF M) (i : Nat)
    (hi : i < M.sound_entries.length) :
    ∃ o, read_u32le (build_kwb_header_and_body M).1 (24 + i * 4) = o ∧ 24 ≤ o := by
  obtain ⟨hn, hewf⟩ := hwf
  set n := M.sound_entries.length with hn_def
  set eb := buildEntriesList ⟨[], []⟩ M.sound_entries with heb
  set offs := offsetsFrom (24 + n * 4) eb.1 with hoffs
  have hbuild1 : (build_kwb_header_and_body M).1 =
      kwbPrologue n ++ ((offs.map u32le).flatten ++ eb.1.flatten) := by
    show kwbPrologue n ++ (offs.map u32le).flatten ++ eb.1.flatten = _
    rw [List.append_assoc]
  have hbufslen : eb.1.length = n := buildEntriesList_length _ _
  have hsum : sumLens eb.1 ≤ 18404 * n :=
    buildEntriesList_sumLens M.sound_entries ⟨[], []⟩ (fun e he => (hewf e he).2.1)
  have hgetoff : offs.get? i = some (24 + n * 4 + sumLens (eb.1.take i)) := by
    rw [hoffs]
    exact offsetsFrom_get eb.1 (24 + n * 4) i (by omega)
  have hoi32 : 24 + n * 4 + sumLens (eb.1.take i) < 4294967296 := by
    have := sumLens_take_le eb.1 i
    omega
  refine ⟨24 + n * 4 + sumLens (eb.1.take i), ?_, by omega⟩
  rw [hbuild1, kwb_table_read n offs _ i (by rw [hoffs, offsetsFrom_length]; omega), hgetoff]
  simp only [Option.getD_some]
  exact Nat.mod_eq_of_lt hoi32

/-- C5 (amended): a sound entry whose stored relative offset is zero is
recorded at extraction as an empty placeholder (no version, no subsounds,
no emitted audio file), and it round-trips with no crash — but the
rebuild emits it as a regular sound entry with zero subsounds at a
nonzero table offset (not as a zero table offset), and re-parsing the
rebuilt bank yields that entry with no subsounds. -/
theorem C5_zero_offset_roundtrip (F : List Nat) (ho bo i : Nat)
    (hbytes : ∀ b ∈ F, b < 256)
    (hi : i < read_u16le F (ho + 6))
    (h0 : read_u32le F (ho + 24 + i * 4) = 0)
    (hver : ∀ e ∈ (parse_kwb2 F ho bo).sound_entries, e.version.getD 32768 < 49152)
    (hbody : (build_kwb_header_and_body (parse_kwb2 F ho bo)).2.length < 4294967296) :
    (parse_kwb2 F ho bo).sound_entries.get? i = some ⟨i, none, []⟩ ∧
    read_u32le (build_kwb_header_and_body (parse_kwb2 F ho bo)).1 (24 + i * 4) ≠ 0 ∧
    ∀ e', (parse_kwb2
        ((build_kwb_header_and_body (parse_kwb2 F ho bo)).1 ++
          (build_kwb_header_and_body (parse_kwb2 F ho bo)).2) 0
        (build_kwb_header_and_body (parse_kwb2 F ho bo)).1.length).sound_entries.get? i =
      some e' → e'.subsounds = [] := by
  have hwfM := parse_kwb2_wf F ho bo hbytes hver
  have hilen : i < (parse_kwb2 F ho bo).sound_entries.length := by
    show i < ((List.range (read_u16le F (ho + 6))).map (parseSound F ho bo)).length
    simpa using hi
  have hget1 : (parse_kwb2 F ho bo).sound_entries.get? i = some ⟨i, none, []⟩ := by
    show ((List.range (read_u16le F (ho + 6))).map (parseSound F ho bo)).get? i = _
    rw [List.get?_map, List.get?_range hi]
    simp only [Option.map_some']
    unfold parseSound
    rw [if_pos h0]
  refine ⟨hget1, ?_, ?_⟩
  · obtain ⟨o, hoeq, ho24⟩ := build_slot_lower (parse_kwb2 F ho bo) hwfM i hilen
    rw [hoeq]
    omega
  · intro e' he'
    obtain ⟨_, hf2⟩ := build_parse_roundtrip (parse_kwb2 F ho bo) hwfM hbody
    obtain ⟨e'', hget2, hem⟩ := forall2_get? hf2 i e' he'
    rw [hget1] at hget2
    have he'' : e'' = ⟨i, none, []⟩ := (Option.some.inj hget2).symm
    rw [he''] at hem
    exact forall2_nil_right hem

/-- Concrete bank with a single zero-offset (placeholder) sound entry,
falsifying the claim that the rebuild preserves the zero table offset. -/
def kwbCex5 : List Nat :=
  [75, 87, 66, 50, 0, 0, 1, 0] ++ List.replicate 16 0 ++ [0, 0, 0, 0]

/-- Counterexample to C5 as frozen: the zero-offset entry is recorded as
an empty placeholder, but the rebuilt bank's table offset for it is
nonzero (0x1c), not zero. -/
theorem C5_zero_offset_roundtrip_counterexample :
    (parse_kwb2 kwbCex5 0 28).sound_entries = [⟨0, none, []⟩] ∧
    read_u32le (build_kwb_header_and_body (parse_kwb2 kwbCex5 0 28)).1 (24 + 0 * 4) = 28 := by
  refine ⟨by decide, by decide⟩

/-- Witness for C5 (amended) at the concrete placeholder bank. -/
theorem C5_zero_offset_roundtrip_witness :
    read_u32le (build_kwb_header_and_body (parse_kwb2 kwbCex5 0 28)).1 (24 + 0 * 4) ≠ 0 :=
  (C5_zero_offset_roundtrip kwbCex5 0 28 0 (by decide) (by decide) (by decide) (by decide)
    (by decide)).2.1
